import Mathlib

/-!
Verification of the sc3 `synth/node.py` module: the tree-query reply
decoder, the node lifecycle and placement operations, the root-node
cache, and the query-tree timeout protocol.

The decoder embedding follows `AbstractGroup.query_tree`'s `resp_func`
and its inner `dump_func` literally: the cursor `i` always points at the
record processed last, and every loop iteration first skips over that
record (using its own header to decide its width) before reading the
next one.  Python `IndexError` is modelled as `DErr.idx`; unbounded
recursion (Python `RecursionError`) as `DErr.fuel`, with a fuel budget
that only decreases when the decoder descends into a nested group.
-/

/-- Decoder failure: an out-of-range list access (Python raises
`IndexError`) or exhaustion of the recursion budget (Python would raise
`RecursionError`). -/
inductive DErr where
  | idx
  | fuel
deriving DecidableEq, Repr

/-- Python list indexing `msg[i]`: negative indices count from the end
of the list, any access outside the list raises. -/
def pyGet (msg : List Int) (i : Int) : Except DErr Int :=
  let j : Int := if i < 0 then (msg.length : Int) + i else i
  if 0 ≤ j then
    match msg.get? j.toNat with
    | some v => Except.ok v
    | none => Except.error DErr.idx
  else Except.error DErr.idx

/-- The skip step at the top of each `dump_func` loop iteration: advance
the cursor past the record it currently points at.  A group header
(`msg[i+1] >= 0`) is two scalars wide; a synth record is three scalars,
plus `msg[i+3] * 2 + 1` further scalars when controls were printed. -/
def skipPhase (msg : List Int) (pc : Bool) (i : Int) : Except DErr Int := do
  let a ← pyGet msg (i + 1)
  if 0 ≤ a then
    pure (i + 2)
  else
    if pc then do
      let c ← pyGet msg (i + 3)
      pure (i + (c * 2 + 1) + 3)
    else
      pure (i + 3)

/-- Python `dict` assignment `d[k] = v` on an insertion-ordered
association list: an existing key keeps its position and gets the new
value, a new key is appended at the end. -/
def dictSet {α β : Type} [DecidableEq α] : List (α × β) → α → β → List (α × β)
  | [], k, v => [(k, v)]
  | (k', v') :: rest, k, v =>
      if k' = k then (k', v) :: rest else (k', v') :: dictSet rest k v

/-- Key of an entry in the decoded tree dictionary, standing for the
formatted Python strings `Group(id)` and `Synth(id, defname)`. -/
inductive QKey where
  | group (id : Int)
  | synth (id : Int) (defn : Int)
deriving DecidableEq, Repr

/-- Value of an entry in the decoded tree dictionary: a group maps to
the dictionary of its children, a synth maps to its control dictionary
(control name, current value). -/
inductive QVal where
  | group (children : List (QKey × QVal))
  | synth (controls : List (Int × Int))

/-- The control-pair reading loop of the synth branch: `count` pairs,
pair `t` at offsets `i+4+2t` (name) and `i+5+2t` (value), written into
the synth's control dictionary in payload order. -/
def readPairs (msg : List Int) (i : Int) :
    Nat → Nat → List (Int × Int) → Except DErr (List (Int × Int))
  | 0, _, acc => Except.ok acc
  | t + 1, j, acc => do
    let k ← pyGet msg (i + 4 + (j : Int))
    let v ← pyGet msg (i + 5 + (j : Int))
    readPairs msg i t (j + 2) (dictSet acc k v)

/-- The `dump_func` loop: process `n` sibling records starting from
cursor `i`, accumulating the entries into the (insertion-ordered)
dictionary `acc`.  Each iteration skips the previous record, reads the
node id and the discriminating second scalar, then either registers a
group (recursing into its children when the child count is positive) or
a synth (reading its control pairs when controls were requested); the
cursor is left on the processed record (for a group with children: on
its last decoded descendant).  The fuel budget decreases on every
iteration and every descent; the top-level entry point passes a budget
that always exceeds what a run of the Python decoder can consume. -/
def dumpFunc (msg : List Int) (pc : Bool) :
    Nat → List (QKey × QVal) → Nat → Int →
    Except DErr (List (QKey × QVal) × Int)
  | 0, _, _, _ => Except.error DErr.fuel
  | _ + 1, acc, 0, i => Except.ok (acc, i)
  | fuel + 1, acc, n + 1, i => do
    let i' ← skipPhase msg pc i
    let nid ← pyGet msg i'
    let b ← pyGet msg (i' + 1)
    if 0 ≤ b then
      if 0 < b then do
        let r ← dumpFunc msg pc fuel [] b.toNat i'
        dumpFunc msg pc fuel (dictSet acc (QKey.group nid) (QVal.group r.1)) n r.2
      else
        dumpFunc msg pc fuel (dictSet acc (QKey.group nid) (QVal.group [])) n i'
    else do
      let d ← pyGet msg (i' + 2)
      if pc then do
        let c ← pyGet msg (i' + 3)
        let ctrls ← readPairs msg i' c.toNat 0 []
        dumpFunc msg pc fuel (dictSet acc (QKey.synth nid d) (QVal.synth ctrls)) n i'
      else
        dumpFunc msg pc fuel (dictSet acc (QKey.synth nid d) (QVal.synth [])) n i'

/-- One loop iteration of `dump_func` in isolation: the record skipped
to from cursor `i` is decoded and returned together with the new
cursor.  `dumpFunc fuel (n+1)` is exactly this step followed by
`dumpFunc fuel n` (see `dumpFunc_cons`). -/
def processOne (msg : List Int) (pc : Bool) (fuel : Nat) (i : Int) :
    Except DErr (QKey × QVal × Int) := do
  let i' ← skipPhase msg pc i
  let nid ← pyGet msg i'
  let b ← pyGet msg (i' + 1)
  if 0 ≤ b then
    if 0 < b then do
      let r ← dumpFunc msg pc fuel [] b.toNat i'
      pure (QKey.group nid, QVal.group r.1, r.2)
    else
      pure (QKey.group nid, QVal.group [], i')
  else do
    let d ← pyGet msg (i' + 2)
    if pc then do
      let c ← pyGet msg (i' + 3)
      let ctrls ← readPairs msg i' c.toNat 0 []
      pure (QKey.synth nid d, QVal.synth ctrls, i')
    else
      pure (QKey.synth nid d, QVal.synth [], i')

/-- The `resp_func` entry point: read the controls flag (`msg[1]`,
Python truthiness), the queried group's id (`msg[2]`) and its child
count (`msg[3]`), then decode the children starting at cursor 2.
Returns the nested output dictionary and the final cursor. -/
def decodeTree (msg : List Int) : Except DErr (List (QKey × QVal) × Int) := do
  let f ← pyGet msg 1
  let pc : Bool := if f = 0 then false else true
  let g ← pyGet msg 2
  let n ← pyGet msg 3
  if 0 < n then do
    let r ← dumpFunc msg pc (msg.length * 2 + 1) [] n.toNat 2
    pure ([(QKey.group g, QVal.group r.1)], r.2)
  else
    pure ([(QKey.group g, QVal.group [])], 2)

/-! ## Well-formed payloads: abstract node trees and their flat encoding -/

/-- Abstract node tree describing one entry of a well-formed tree-query
reply: a group with a list of children, or a synth with a definition id
and a list of control (name, value) pairs. -/
inductive NTree where
  | group (id : Int) (children : List NTree)
  | synth (id : Int) (defn : Int) (ctrls : List (Int × Int))

/-- Flat encoding of control pairs: name then value, in order. -/
def encCtrls : List (Int × Int) → List Int
  | [] => []
  | (k, v) :: rest => k :: v :: encCtrls rest

mutual

/-- Flat encoding of one node entry, following the reply grammar: a
group is `id, childCount` followed by its children's entries, a synth
is `id, -1, defn` followed (only when the controls flag is set) by
`ctrlCount` and the control pairs. -/
def encNode (pc : Bool) : NTree → List Int
  | NTree.group g cs => g :: ((cs.length : Int) :: encSeq pc cs)
  | NTree.synth sid d ctrls =>
      sid :: (-1 : Int) :: d ::
        (if pc then (ctrls.length : Int) :: encCtrls ctrls else [])

/-- Flat encoding of a sequence of sibling node entries. -/
def encSeq (pc : Bool) : List NTree → List Int
  | [] => []
  | t :: ts => encNode pc t ++ encSeq pc ts

end

/-- A whole reply payload: address placeholder, controls flag, queried
group id, child count, then the children's entries. -/
def encodeTop (pc : Bool) (g : Int) (cs : List NTree) : List Int :=
  0 :: (if pc then (1 : Int) else 0) :: g :: ((cs.length : Int) :: encSeq pc cs)

/-- The control dictionary the decoder builds for a synth: the pairs
written in payload order with Python dict-update semantics. -/
def ctrlDict (l : List (Int × Int)) : List (Int × Int) :=
  l.foldl (fun acc p => dictSet acc p.1 p.2) []

/-- The dictionary key the decoder derives for a node entry. -/
def decKey : NTree → QKey
  | NTree.group g _ => QKey.group g
  | NTree.synth sid d _ => QKey.synth sid d

mutual

/-- The dictionary value the decoder derives for a node entry. -/
def decVal (pc : Bool) : NTree → QVal
  | NTree.group _ cs => QVal.group (decDictAcc pc [] cs)
  | NTree.synth _ _ ctrls => QVal.synth (if pc then ctrlDict ctrls else [])

/-- The dictionary the decoder builds for a sequence of siblings,
starting from the accumulated dictionary `acc`. -/
def decDictAcc (pc : Bool) : List (QKey × QVal) → List NTree → List (QKey × QVal)
  | acc, [] => acc
  | acc, t :: ts => decDictAcc pc (dictSet acc (decKey t) (decVal pc t)) ts

end

mutual

/-- Every synth entry in this decoded value carries an empty control
dictionary. -/
def synthsEmpty : QVal → Prop
  | QVal.group cs => synthsEmptyD cs
  | QVal.synth cs => cs = []

/-- `synthsEmpty` for every entry of a decoded dictionary. -/
def synthsEmptyD : List (QKey × QVal) → Prop
  | [] => True
  | p :: rest => synthsEmpty p.2 ∧ synthsEmptyD rest

end

/-! ## Node records, server state and the lifecycle operations -/

/-- The kind of a client-side node record (`Group`, `ParGroup`, `Synth`
or the cached `RootNode`). -/
inductive NodeKind where
  | group
  | pargroup
  | synth
  | root
deriving DecidableEq, Repr

/-- One client-side node record: its server-side id, its local mirror
of group membership (a reference into the heap, or `none` once freed),
the watch flags (`none` = unknown/not watched), and for synths the
definition name. -/
structure NodeRec where
  node_id : Int
  group : Option Nat
  kind : NodeKind
  is_playing : Option Bool
  is_running : Option Bool
  def_name : Option String
deriving DecidableEq, Repr

/-- A typed OSC argument: integer, string or (rational-valued) number. -/
inductive Arg where
  | i (n : Int)
  | s (t : String)
  | q (x : ℚ)
deriving DecidableEq, Repr

/-- One transmission: a single immediate message, or a time-stamped
bundle of messages (as used by `release`). -/
inductive Sent where
  | msg (addr : String) (args : List Arg)
  | bundle (time : Option ℚ) (packets : List (String × List Arg))
deriving DecidableEq, Repr

/-- The client-side state: the heap of node records (references are
list indices), the id allocator counter, the outgoing transmissions in
order, the diagnostic log, the per-server-name root-node cache, and the
server latency used for scheduled bundles. -/
structure SState where
  heap : List NodeRec
  nextId : Int
  sent : List Sent
  logs : List String
  roots : List (String × Nat)
  latency : Option ℚ
deriving DecidableEq, Repr

/-- Modelled from the spec: the external IdentitySource
(`server._next_node_id`, §6 `next_identifier()`) hands out fresh node
identifiers; modelled as a counter. -/
def nextNodeId (s : SState) : SState × Int :=
  ({ s with nextId := s.nextId + 1 }, s.nextId)

/-- A key of the `Node.add_actions` dictionary: a string alias or a
numeric code. -/
inductive AAKey where
  | name (t : String)
  | num (n : Int)
deriving DecidableEq, Repr

/-- The `Node.add_actions` dictionary: traditional, simple and shortcut
string aliases plus the five canonical numeric codes; a missing key is
`none` (Python `KeyError`). -/
def addActions : AAKey → Option Int
  | AAKey.name "addToHead" => some 0
  | AAKey.name "addToTail" => some 1
  | AAKey.name "addBefore" => some 2
  | AAKey.name "addAfter" => some 3
  | AAKey.name "addReplace" => some 4
  | AAKey.name "head" => some 0
  | AAKey.name "tail" => some 1
  | AAKey.name "before" => some 2
  | AAKey.name "after" => some 3
  | AAKey.name "replace" => some 4
  | AAKey.name "h" => some 0
  | AAKey.name "t" => some 1
  | AAKey.name "b" => some 2
  | AAKey.name "a" => some 3
  | AAKey.name "r" => some 4
  | AAKey.num 0 => some 0
  | AAKey.num 1 => some 1
  | AAKey.num 2 => some 2
  | AAKey.num 3 => some 3
  | AAKey.num 4 => some 4
  | _ => none

/-- `Synth.__init__`: resolve the add action, allocate an id, set the
local group membership (`target` itself for codes 0/1, `target.group`
for codes 2-4 — the code never checks the target's kind), and send one
`/s_new` message.  The new record's heap reference is returned. -/
def synthNew (s : SState) (dn : String) (args : List Arg) (target : Nat)
    (aa : AAKey) : Option (SState × Nat) :=
  match addActions aa with
  | none => none
  | some code =>
    match s.heap.get? target with
    | none => none
    | some trec =>
      let p := nextNodeId s
      let nrec : NodeRec :=
        { node_id := p.2, group := if code < 2 then some target else trec.group,
          kind := NodeKind.synth, is_playing := none, is_running := none,
          def_name := some dn }
      some ({ p.1 with
                heap := p.1.heap ++ [nrec],
                sent := p.1.sent ++ [Sent.msg "/s_new"
                  ([Arg.s dn, Arg.i p.2, Arg.i code, Arg.i trec.node_id] ++ args)] },
            p.1.heap.length)

/-- The creation command of `Group` (`/g_new`) and `ParGroup`
(`/p_new`). -/
def groupCreationCmd : NodeKind → String
  | NodeKind.pargroup => "/p_new"
  | _ => "/g_new"

/-- `AbstractGroup.__init__`: same group-membership rule as
`Synth.__init__`, sending one creation message. -/
def groupNew (s : SState) (k : NodeKind) (target : Nat) (aa : AAKey) :
    Option (SState × Nat) :=
  match addActions aa with
  | none => none
  | some code =>
    match s.heap.get? target with
    | none => none
    | some trec =>
      let p := nextNodeId s
      let nrec : NodeRec :=
        { node_id := p.2, group := if code < 2 then some target else trec.group,
          kind := k, is_playing := none, is_running := none, def_name := none }
      some ({ p.1 with
                heap := p.1.heap ++ [nrec],
                sent := p.1.sent ++ [Sent.msg (groupCreationCmd k)
                  [Arg.i p.2, Arg.i code, Arg.i trec.node_id]] },
            p.1.heap.length)

/-- `Node.basic_new`: instantiate a record without creating it on the
server — no message, `group = None`, watch flags unknown; the id is the
supplied one or a freshly allocated one.  Returns the new record and
its heap reference. -/
def basicNew (s : SState) (k : NodeKind) (dn : Option String)
    (nodeId : Option Int) : SState × NodeRec × Nat :=
  let p := match nodeId with
    | some x => (s, x)
    | none => nextNodeId s
  let nrec : NodeRec :=
    { node_id := p.2, group := none, kind := k,
      is_playing := none, is_running := none, def_name := dn }
  ({ p.1 with heap := p.1.heap ++ [nrec] }, nrec, p.1.heap.length)

/-- `Node.free`: optionally send `/n_free` with the node's id, then set
the local `group` to `none`.  The watch flags are not touched. -/
def nodeFree (s : SState) (r : Nat) (sendFlag : Bool) : Option SState :=
  match s.heap.get? r with
  | none => none
  | some nrec =>
    let s1 := if sendFlag
      then { s with sent := s.sent ++ [Sent.msg "/n_free" [Arg.i nrec.node_id]] }
      else s
    some { s1 with heap := s1.heap.set r { nrec with group := none } }

/-- `Node.run`: send `/n_run`; the local mirror is not changed. -/
def nodeRun (s : SState) (r : Nat) (flag : Bool) : Option SState :=
  (s.heap.get? r).map fun nrec =>
    { s with sent := s.sent ++ [Sent.msg "/n_run"
        [Arg.i nrec.node_id, Arg.i (if flag then 1 else 0)]] }

/-- The gate value computed by `Node.release`: `None` becomes 0 (normal
release), a time `<= 0` becomes -1 (immediate), a positive time `t`
becomes `-(t + 1)` (forced release). -/
def releaseGate : Option ℚ → ℚ
  | none => 0
  | some t => if t ≤ 0 then -1 else -(t + 1)

/-- `Node.release`: send one latency-stamped bundle holding a single
`/n_set` message that sets the `gate` control to the encoded value. -/
def nodeRelease (s : SState) (r : Nat) (time : Option ℚ) : Option SState :=
  (s.heap.get? r).map fun nrec =>
    { s with sent := s.sent ++ [Sent.bundle s.latency
        [("/n_set", [Arg.i nrec.node_id, Arg.s "gate", Arg.q (releaseGate time)])]] }

/-- `Node.move_before`: reparent to `other`'s group and send
`/n_before`. -/
def moveBefore (s : SState) (r o : Nat) : Option SState :=
  match s.heap.get? r, s.heap.get? o with
  | some nrec, some orec =>
    some { s with
      heap := s.heap.set r { nrec with group := orec.group },
      sent := s.sent ++ [Sent.msg "/n_before" [Arg.i nrec.node_id, Arg.i orec.node_id]] }
  | _, _ => none

/-- `Node.move_after`: reparent to `other`'s group and send `/n_after`. -/
def moveAfter (s : SState) (r o : Nat) : Option SState :=
  match s.heap.get? r, s.heap.get? o with
  | some nrec, some orec =>
    some { s with
      heap := s.heap.set r { nrec with group := orec.group },
      sent := s.sent ++ [Sent.msg "/n_after" [Arg.i nrec.node_id, Arg.i orec.node_id]] }
  | _, _ => none

/-- `AbstractGroup.move_node_to_head`: set `node.group` to the group
itself and send `/g_head`. -/
def moveNodeToHead (s : SState) (g n : Nat) : Option SState :=
  match s.heap.get? g, s.heap.get? n with
  | some grec, some nrec =>
    some { s with
      heap := s.heap.set n { nrec with group := some g },
      sent := s.sent ++ [Sent.msg "/g_head" [Arg.i grec.node_id, Arg.i nrec.node_id]] }
  | _, _ => none

/-- `AbstractGroup.move_node_to_tail`: set `node.group` to the group
itself and send `/g_tail`. -/
def moveNodeToTail (s : SState) (g n : Nat) : Option SState :=
  match s.heap.get? g, s.heap.get? n with
  | some grec, some nrec =>
    some { s with
      heap := s.heap.set n { nrec with group := some g },
      sent := s.sent ++ [Sent.msg "/g_tail" [Arg.i grec.node_id, Arg.i nrec.node_id]] }
  | _, _ => none

/-- `Synth.new_replace`: a `basic_new` synth (same id as the replaced
node when `same_id`, else a fresh one) plus a single `/s_new` message
with add-action code 4 targeting the replaced node's id.  The replaced
record itself is not touched. -/
def newReplace (s : SState) (r : Nat) (dn : String) (args : List Arg)
    (sameId : Bool) : Option (SState × Nat) :=
  match s.heap.get? r with
  | none => none
  | some nrec =>
    let b := basicNew s NodeKind.synth (some dn)
      (if sameId then some nrec.node_id else none)
    some ({ b.1 with sent := b.1.sent ++ [Sent.msg "/s_new"
        ([Arg.s dn, Arg.i b.2.1.node_id, Arg.i 4, Arg.i nrec.node_id] ++ args)] },
      b.2.2)

/-- Lookup in the `RootNode.roots` cache (keyed by server name). -/
def lookupRoot : List (String × Nat) → String → Option Nat
  | [], _ => none
  | (k, v) :: rest, n => if k = n then some v else lookupRoot rest n

/-- `RootNode.__new__`: return the cached instance for this server name
if present; otherwise create the record — id 0, playing and running
always true, `group` pointing at itself — cache and return it. -/
def rootNodeNew (s : SState) (srvName : String) : SState × Nat :=
  match lookupRoot s.roots srvName with
  | some r => (s, r)
  | none =>
    let r := s.heap.length
    let nrec : NodeRec :=
      { node_id := 0, group := some r, kind := NodeKind.root,
        is_playing := some true, is_running := some true, def_name := none }
    ({ s with heap := s.heap ++ [nrec], roots := s.roots ++ [(srvName, r)] }, r)

/-- `RootNode.run`: a no-op that only logs a diagnostic. -/
def rootRun (s : SState) : SState :=
  { s with logs := s.logs ++ ["run has no effect on RootNode"] }

/-- `RootNode.free`: a no-op that only logs a diagnostic. -/
def rootFree (s : SState) : SState :=
  { s with logs := s.logs ++ ["free has no effect on RootNode"] }

/-- `RootNode.move_before`: a no-op that only logs a diagnostic. -/
def rootMoveBefore (s : SState) : SState :=
  { s with logs := s.logs ++ ["moveBefore has no effect on RootNode"] }

/-- `RootNode.move_after`: a no-op that only logs a diagnostic. -/
def rootMoveAfter (s : SState) : SState :=
  { s with logs := s.logs ++ ["move_after has no effect on RootNode"] }

/-- `RootNode.move_to_head`: a no-op that only logs a diagnostic. -/
def rootMoveToHead (s : SState) : SState :=
  { s with logs := s.logs ++ ["move_to_head has no effect on RootNode"] }

/-- `RootNode.move_to_tail`: a no-op that only logs a diagnostic. -/
def rootMoveToTail (s : SState) : SState :=
  { s with logs := s.logs ++ ["move_to_tail has no effect on RootNode"] }

/-- The parent reference of a record: its `group` field. -/
def parentOf (s : SState) (r : Nat) : Option Nat :=
  (s.heap.get? r).bind (fun nrec => nrec.group)

/-- `a` is an ancestor of `b` through the chain of `group` fields. -/
inductive NAncestor (s : SState) : Nat → Nat → Prop
  | parent {a b : Nat} : parentOf s b = some a → NAncestor s a b
  | step {a b c : Nat} : parentOf s b = some c → NAncestor s a c → NAncestor s a b

/-- The `group` field, when set, refers into the heap. -/
def groupRefOkB (len : Nat) (nrec : NodeRec) : Bool :=
  match nrec.group with
  | none => true
  | some g => decide (g < len)

/-- Every record's `group` field is `none` or a valid heap reference. -/
def GroupRefsOk (s : SState) : Prop :=
  ∀ nrec ∈ s.heap, groupRefOkB s.heap.length nrec = true

/-- One operation of the node lifecycle model: every constructor and
every mutating method of the module. -/
inductive Op where
  | opSynthNew (dn : String) (args : List Arg) (target : Nat) (aa : AAKey)
  | opGroupNew (k : NodeKind) (target : Nat) (aa : AAKey)
  | opBasicNew (k : NodeKind) (dn : Option String) (nodeId : Option Int)
  | opRootNew (srv : String)
  | opNewReplace (r : Nat) (dn : String) (args : List Arg) (sameId : Bool)
  | opFree (r : Nat) (flag : Bool)
  | opRun (r : Nat) (flag : Bool)
  | opRelease (r : Nat) (time : Option ℚ)
  | opMoveBefore (r o : Nat)
  | opMoveAfter (r o : Nat)
  | opMoveNodeToHead (g n : Nat)
  | opMoveNodeToTail (g n : Nat)
  | opRootRun
  | opRootFree
  | opRootMoveBefore
  | opRootMoveAfter
  | opRootMoveToHead
  | opRootMoveToTail

/-- The step function of the lifecycle model: run one operation,
`none` when the operation's receiver or target does not exist. -/
def step (s : SState) : Op → Option SState
  | Op.opSynthNew dn args t aa => (synthNew s dn args t aa).map (fun p => p.1)
  | Op.opGroupNew k t aa => (groupNew s k t aa).map (fun p => p.1)
  | Op.opBasicNew k dn nid => some (basicNew s k dn nid).1
  | Op.opRootNew n => some (rootNodeNew s n).1
  | Op.opNewReplace r dn args si => (newReplace s r dn args si).map (fun p => p.1)
  | Op.opFree r f => nodeFree s r f
  | Op.opRun r f => nodeRun s r f
  | Op.opRelease r t => nodeRelease s r t
  | Op.opMoveBefore r o => moveBefore s r o
  | Op.opMoveAfter r o => moveAfter s r o
  | Op.opMoveNodeToHead g n => moveNodeToHead s g n
  | Op.opMoveNodeToTail g n => moveNodeToTail s g n
  | Op.opRootRun => some (rootRun s)
  | Op.opRootFree => some (rootFree s)
  | Op.opRootMoveBefore => some (rootMoveBefore s)
  | Op.opRootMoveAfter => some (rootMoveAfter s)
  | Op.opRootMoveToHead => some (rootMoveToHead s)
  | Op.opRootMoveToTail => some (rootMoveToTail s)

/-! ## The query-tree request/reply/timeout protocol -/

/-- Modelled from the spec: the reply-correlation service of §6
(`subscribe(reply_address, filter_prefix, handler, one_shot)`, consumed
through `rpd.OscFunc`) matches an optional template against the leading
arguments of an incoming reply. -/
def leadMatch : List Int → List Int → Bool
  | [], _ => true
  | x :: xs, y :: ys => x = y && leadMatch xs ys
  | _ :: _, [] => false

/-- Modelled from the spec: template matching of a registered listener;
a listener without a template matches every payload on its address. -/
def templMatch : Option (List Int) → List Int → Bool
  | none, _ => true
  | some tpl, args => leadMatch tpl args

/-- The state of one `query_tree` exchange: the queried node id, the
listener's template and liveness, the `done` flag of `resp_func`, the
payloads on which the callback ran, the warning count and the outgoing
requests. -/
structure QTState where
  queriedId : Int
  template : Option (List Int)
  listenerAlive : Bool
  done : Bool
  invoked : List (List Int)
  warnings : Nat
  requests : List (String × List Int)
deriving DecidableEq, Repr

/-- `AbstractGroup.query_tree`: register a one-shot listener on
`/g_queryTree.reply` with no argument template, send the
`/g_queryTree` request, and arm the timeout. -/
def qtStart (nodeId : Int) (controls : Bool) : QTState :=
  { queriedId := nodeId, template := none, listenerAlive := true,
    done := false, invoked := [], warnings := 0,
    requests := [("/g_queryTree", [nodeId, if controls then 1 else 0])] }

/-- Modelled from the spec: delivery of an incoming
`/g_queryTree.reply` payload.  A live, matching listener runs
`resp_func` (which decodes, sets `done` and invokes the callback) and,
being one-shot, retires itself; otherwise nothing happens. -/
def qtDeliver (st : QTState) (args : List Int) : QTState :=
  if st.listenerAlive && templMatch st.template args then
    { st with
        done := true
        invoked := st.invoked ++ [args]
        listenerAlive := false }
  else st

/-- `timeout_func` (fired by the scheduled clock entry): if no reply
has been handled, free the listener and log a warning; otherwise do
nothing. -/
def qtTimeout (st : QTState) : QTState :=
  if st.done then st
  else { st with listenerAlive := false, warnings := st.warnings + 1 }

/-- A concrete two-record heap used to instantiate theorems: a group
(ref 0) and a synth (ref 1) sitting inside it. -/
def fixState : SState :=
  { heap := [
      { node_id := 1, group := none, kind := NodeKind.group,
        is_playing := none, is_running := none, def_name := none },
      { node_id := 2, group := some 0, kind := NodeKind.synth,
        is_playing := none, is_running := none, def_name := some "ping" }]
    nextId := 3
    sent := []
    logs := []
    roots := []
    latency := none }

/-- Success of one decoder iteration on a well-formed record: with the
cursor `i` skipping to the record's start `pre.length` and enough fuel,
`processOne` returns the record's key, its decoded value and a cursor
that skips to the record's end. -/
def StepOKStmt (t : NTree) : Prop :=
  ∀ (pc : Bool) (pre post : List Int) (i : Int) (fuel : Nat),
    skipPhase (pre ++ encNode pc t ++ post) pc i = Except.ok ((pre.length : Int)) →
    0 ≤ i →
    2 * (pre ++ encNode pc t ++ post).length ≤ fuel + 2 * pre.length + 3 →
    ∃ iF : Int, 0 ≤ iF ∧
      processOne (pre ++ encNode pc t ++ post) pc fuel i =
        Except.ok (decKey t, decVal pc t, iF) ∧
      skipPhase (pre ++ encNode pc t ++ post) pc iF =
        Except.ok (((pre.length + (encNode pc t).length : Nat) : Int))

/-- Success of the decoder loop on a well-formed sibling sequence. -/
def SeqOKStmt (l : List NTree) : Prop :=
  ∀ (pc : Bool) (pre post : List Int) (acc : List (QKey × QVal)) (i : Int) (fuel : Nat),
    skipPhase (pre ++ encSeq pc l ++ post) pc i = Except.ok ((pre.length : Int)) →
    0 ≤ i →
    2 * (pre ++ encSeq pc l ++ post).length < fuel + 2 * pre.length →
    ∃ iF : Int, 0 ≤ iF ∧
      dumpFunc (pre ++ encSeq pc l ++ post) pc fuel acc l.length i =
        Except.ok (decDictAcc pc acc l, iF) ∧
      skipPhase (pre ++ encSeq pc l ++ post) pc iF =
        Except.ok (((pre.length + (encSeq pc l).length : Nat) : Int))

/-- Failure of one decoder iteration on a record truncated before its
end: the payload stops mid-record and `processOne` raises the index
error. -/
def StepFailStmt (t : NTree) : Prop :=
  ∀ (pc : Bool) (pre : List Int) (m : Nat) (i : Int) (fuel : Nat),
    m < (encNode pc t).length →
    skipPhase (pre ++ (encNode pc t).take m) pc i = Except.ok ((pre.length : Int)) →
    0 ≤ i →
    2 * (pre ++ (encNode pc t).take m).length ≤ fuel + 2 * pre.length + 3 →
    processOne (pre ++ (encNode pc t).take m) pc fuel i = Except.error DErr.idx

/-- Failure of the decoder loop on a truncated sibling sequence. -/
def SeqFailStmt (l : List NTree) : Prop :=
  ∀ (pc : Bool) (pre : List Int) (m : Nat) (acc : List (QKey × QVal)) (i : Int) (fuel : Nat),
    m < (encSeq pc l).length →
    skipPhase (pre ++ (encSeq pc l).take m) pc i = Except.ok ((pre.length : Int)) →
    0 ≤ i →
    2 * (pre ++ (encSeq pc l).take m).length < fuel + 2 * pre.length →
    dumpFunc (pre ++ (encSeq pc l).take m) pc fuel acc l.length i = Except.error DErr.idx

/-! ## Theorems -/

theorem lookupRoot_append_self (l : List (String × Nat)) (n : String) (v : Nat)
    (h : lookupRoot l n = none) : lookupRoot (l ++ [(n, v)]) n = some v := by
  induction l with
  | nil => simp [lookupRoot]
  | cons p rest ih =>
    obtain ⟨k, w⟩ := p
    simp only [List.cons_append, lookupRoot] at h ⊢
    by_cases hp : k = n
    · simp [hp] at h
    · rw [if_neg hp] at h ⊢
      exact ih h

/-- C2: `release(time)` encodes the gate value as `0` for `time = None`
(normal release), `-1` for every `time <= 0` (immediate release), and
`-(time + 1)` for every `time > 0` — so `release(2.5)` sends `-3.5`,
every forced-release code is strictly below `-1`, and the original time
is recovered as `-(code) - 1`; the value is sent in a single
latency-stamped `/n_set` bundle for the node's `gate` control. -/
theorem c2_release_encoding :
    releaseGate none = 0 ∧
    (∀ t : ℚ, t ≤ 0 → releaseGate (some t) = -1) ∧
    releaseGate (some (5 / 2 : ℚ)) = -(7 / 2 : ℚ) ∧
    (∀ t : ℚ, 0 < t →
      releaseGate (some t) = -(t + 1) ∧
      releaseGate (some t) < -1 ∧
      -(releaseGate (some t)) - 1 = t) ∧
    (∀ (s : SState) (r : Nat) (nrec : NodeRec) (time : Option ℚ),
      s.heap.get? r = some nrec →
      nodeRelease s r time = some { s with sent := s.sent ++ [Sent.bundle s.latency
        [("/n_set", [Arg.i nrec.node_id, Arg.s "gate", Arg.q (releaseGate time)])]] }) := by
  refine ⟨rfl, ?_, ?_, ?_, ?_⟩
  · intro t ht
    simp [releaseGate, ht]
  · norm_num [releaseGate]
  · intro t ht
    have hne : ¬ t ≤ 0 := not_le.mpr ht
    refine ⟨by simp [releaseGate, hne], ?_, ?_⟩
    · simp only [releaseGate, if_neg hne]
      linarith
    · simp only [releaseGate, if_neg hne]
      ring
  · intro s r nrec time h
    unfold nodeRelease
    rw [h]
    rfl

/-- Witness for C2 at concrete inputs: `release(None)`, `release(-5)`,
`release(2.5)` and the bundle emitted on a concrete state. -/
theorem c2_release_encoding_witness :
    releaseGate none = 0 ∧
    releaseGate (some (-5 : ℚ)) = -1 ∧
    releaseGate (some (5 / 2 : ℚ)) = -(7 / 2 : ℚ) ∧
    releaseGate (some (5 / 2 : ℚ)) < -1 ∧
    -(releaseGate (some (5 / 2 : ℚ))) - 1 = (5 / 2 : ℚ) ∧
    nodeRelease fixState 1 (some (5 / 2 : ℚ)) =
      some { fixState with sent := [Sent.bundle none
        [("/n_set", [Arg.i 2, Arg.s "gate", Arg.q (-(7 / 2 : ℚ))])]] } := by
  obtain ⟨h0, hle, h25, hpos, hop⟩ := c2_release_encoding
  obtain ⟨he, hlt, hrec⟩ := hpos (5 / 2 : ℚ) (by norm_num)
  refine ⟨h0, hle (-5 : ℚ) (by norm_num), h25, hlt, hrec, ?_⟩
  have h5 := hop fixState 1 ⟨2, some 0, NodeKind.synth, none, none, some "ping"⟩ (some (5 / 2 : ℚ)) rfl
  rw [h5]
  norm_num [fixState, releaseGate]

/-- C6: `RootNode` construction is cached per server name — a second
construction returns the identical instance and state — and the
overridden operations `run`, `free`, `move_before`, `move_after`,
`move_to_head` and `move_to_tail` never emit a message: each only
appends its diagnostic to the log. -/
theorem c6_root_singleton_and_silent_ops :
    ∀ (s : SState) (srvName : String),
      rootNodeNew (rootNodeNew s srvName).1 srvName = rootNodeNew s srvName ∧
      ((rootRun s).sent = s.sent ∧
        rootRun s = { s with logs := s.logs ++ ["run has no effect on RootNode"] }) ∧
      ((rootFree s).sent = s.sent ∧
        rootFree s = { s with logs := s.logs ++ ["free has no effect on RootNode"] }) ∧
      ((rootMoveBefore s).sent = s.sent ∧
        rootMoveBefore s = { s with logs := s.logs ++ ["moveBefore has no effect on RootNode"] }) ∧
      ((rootMoveAfter s).sent = s.sent ∧
        rootMoveAfter s = { s with logs := s.logs ++ ["move_after has no effect on RootNode"] }) ∧
      ((rootMoveToHead s).sent = s.sent ∧
        rootMoveToHead s = { s with logs := s.logs ++ ["move_to_head has no effect on RootNode"] }) ∧
      ((rootMoveToTail s).sent = s.sent ∧
        rootMoveToTail s = { s with logs := s.logs ++ ["move_to_tail has no effect on RootNode"] }) := by
  intro s srvName
  refine ⟨?_, ⟨rfl, rfl⟩, ⟨rfl, rfl⟩, ⟨rfl, rfl⟩, ⟨rfl, rfl⟩, ⟨rfl, rfl⟩, ⟨rfl, rfl⟩⟩
  unfold rootNodeNew
  cases h : lookupRoot s.roots srvName with
  | some r => simp [h]
  | none =>
    simp only [h]
    rw [lookupRoot_append_self s.roots srvName s.heap.length h]

theorem get?_set_other {α : Type} (l : List α) (i j : Nat) (a : α) (h : i ≠ j) :
    (l.set i a).get? j = l.get? j := by
  rw [List.get?_eq_getElem?, List.get?_eq_getElem?]
  exact List.getElem?_set_ne h

/-- C5: `free(send=True)` appends exactly one `/n_free` message with the
node's id and sets the record's `group` to `none`; `free(send=False)`
changes nothing but the record's `group`, sending no message; in both
cases the record keeps its `is_playing`/`is_running` flags (still
unknown for an unwatched node) and every other record is untouched. -/
theorem c5_free_effects :
    ∀ (s : SState) (r : Nat) (nrec : NodeRec), s.heap.get? r = some nrec →
      nodeFree s r true = some { s with
        sent := s.sent ++ [Sent.msg "/n_free" [Arg.i nrec.node_id]]
        heap := s.heap.set r { nrec with group := none } } ∧
      nodeFree s r false = some { s with
        heap := s.heap.set r { nrec with group := none } } ∧
      (s.heap.set r { nrec with group := none }).get? r = some { nrec with group := none } ∧
      (∀ r', r' ≠ r → (s.heap.set r { nrec with group := none }).get? r' = s.heap.get? r') := by
  intro s r nrec h
  have hlt : r < s.heap.length := (List.get?_eq_some.mp h).1
  refine ⟨?_, ?_, List.get?_set_eq_of_lt _ hlt, ?_⟩
  · unfold nodeFree
    rw [h]
    rfl
  · unfold nodeFree
    rw [h]
    rfl
  · intro r' hr'
    exact get?_set_other _ r r' _ (fun e => hr' e.symm)

/-- Witness for C5: freeing the synth of the concrete fixture. -/
theorem c5_free_effects_witness :
    nodeFree fixState 1 true = some { fixState with
      sent := [Sent.msg "/n_free" [Arg.i 2]]
      heap := fixState.heap.set 1 ⟨2, none, NodeKind.synth, none, none, some "ping"⟩ } ∧
    nodeFree fixState 1 false = some { fixState with
      heap := fixState.heap.set 1 ⟨2, none, NodeKind.synth, none, none, some "ping"⟩ } ∧
    (fixState.heap.set 1 ⟨2, none, NodeKind.synth, none, none, some "ping"⟩).get? 1 =
      some ⟨2, none, NodeKind.synth, none, none, some "ping"⟩ := by
  obtain ⟨h1, h2, h3, _⟩ :=
    c5_free_effects fixState 1 ⟨2, some 0, NodeKind.synth, none, none, some "ping"⟩ rfl
  exact ⟨h1, h2, h3⟩

/-- C10: `Synth.new_replace(r, dn, args, same_id)` emits exactly one
`/s_new` message with add-action code 4 (replace) targeting `r`'s id,
returns a fresh record (reusing `r`'s id when `same_id`, else a newly
allocated one, with `group = none` and unknown flags), and leaves `r`'s
own record — in particular its `group` field — completely unchanged. -/
theorem c10_new_replace_frame :
    ∀ (s : SState) (r : Nat) (nrec : NodeRec) (dn : String) (args : List Arg)
      (sameId : Bool), s.heap.get? r = some nrec →
      ∃ s' newRef, newReplace s r dn args sameId = some (s', newRef) ∧
        s'.sent = s.sent ++ [Sent.msg "/s_new"
          ([Arg.s dn, Arg.i (if sameId then nrec.node_id else s.nextId),
            Arg.i 4, Arg.i nrec.node_id] ++ args)] ∧
        newRef = s.heap.length ∧
        s'.heap.get? newRef = some ⟨(if sameId then nrec.node_id else s.nextId),
          none, NodeKind.synth, none, none, some dn⟩ ∧
        s'.heap.get? r = some nrec ∧
        s'.nextId = (if sameId then s.nextId else s.nextId + 1) ∧
        s'.logs = s.logs := by
  intro s r nrec dn args sameId h
  have hlt : r < s.heap.length := (List.get?_eq_some.mp h).1
  cases sameId with
  | true =>
    refine ⟨{ s with
        heap := s.heap ++ [⟨nrec.node_id, none, NodeKind.synth, none, none, some dn⟩]
        sent := s.sent ++ [Sent.msg "/s_new"
          ([Arg.s dn, Arg.i nrec.node_id, Arg.i 4, Arg.i nrec.node_id] ++ args)] },
      s.heap.length, ?_, rfl, rfl, ?_, ?_, rfl, rfl⟩
    · unfold newReplace basicNew
      rw [h]
      rfl
    · exact List.get?_concat_length s.heap _
    · rw [List.get?_append hlt]
      exact h
  | false =>
    refine ⟨{ s with
        nextId := s.nextId + 1
        heap := s.heap ++ [⟨s.nextId, none, NodeKind.synth, none, none, some dn⟩]
        sent := s.sent ++ [Sent.msg "/s_new"
          ([Arg.s dn, Arg.i s.nextId, Arg.i 4, Arg.i nrec.node_id] ++ args)] },
      s.heap.length, ?_, rfl, rfl, ?_, ?_, rfl, rfl⟩
    · unfold newReplace basicNew nextNodeId
      rw [h]
      rfl
    · exact List.get?_concat_length s.heap _
    · rw [List.get?_append hlt]
      exact h

/-- Witness for C10: replacing the fixture's synth, with and without id
reuse; the replaced record keeps its fields. -/
theorem c10_new_replace_frame_witness :
    (∃ s' newRef, newReplace fixState 1 "pong" [] true = some (s', newRef) ∧
      s'.heap.get? 1 = some ⟨2, some 0, NodeKind.synth, none, none, some "ping"⟩) ∧
    (∃ s' newRef, newReplace fixState 1 "pong" [] false = some (s', newRef) ∧
      s'.heap.get? 1 = some ⟨2, some 0, NodeKind.synth, none, none, some "ping"⟩) := by
  constructor
  · obtain ⟨s', newRef, he, _, _, _, hkeep, _, _⟩ :=
      c10_new_replace_frame fixState 1 ⟨2, some 0, NodeKind.synth, none, none, some "ping"⟩
        "pong" [] true rfl
    exact ⟨s', newRef, he, hkeep⟩
  · obtain ⟨s', newRef, he, _, _, _, hkeep, _, _⟩ :=
      c10_new_replace_frame fixState 1 ⟨2, some 0, NodeKind.synth, none, none, some "ping"⟩
        "pong" [] false rfl
    exact ⟨s', newRef, he, hkeep⟩

/-- C8 (amended): `query_tree` registers a one-shot listener on the
tree-reply address with no argument template (so it is not keyed by the
queried node's id) and arms a timeout; if no reply arrives before the
timeout fires, the listener is freed, exactly one warning is logged and
the callback never runs; a late, post-timeout reply is ignored
entirely. -/
theorem c8_query_tree_timeout :
    ∀ (nodeId : Int) (controls : Bool) (late : List Int),
      (qtStart nodeId controls).template = none ∧
      (qtStart nodeId controls).listenerAlive = true ∧
      (qtStart nodeId controls).done = false ∧
      (qtStart nodeId controls).invoked = [] ∧
      (qtTimeout (qtStart nodeId controls)).listenerAlive = false ∧
      (qtTimeout (qtStart nodeId controls)).warnings = 1 ∧
      (qtTimeout (qtStart nodeId controls)).invoked = [] ∧
      qtDeliver (qtTimeout (qtStart nodeId controls)) late =
        qtTimeout (qtStart nodeId controls) := by
  intro nodeId controls late
  refine ⟨rfl, rfl, rfl, rfl, rfl, rfl, rfl, ?_⟩
  simp [qtDeliver, qtTimeout, qtStart]

/-- Counterexample to C8 as stated: the listener is not keyed by the
queried node's id — a reply whose node id (9) differs from the queried
one (7) still fires the callback, because `query_tree` registers its
`OscFunc` without an `arg_template`. -/
theorem c8_counterexample_listener_not_keyed :
    (qtStart 7 true).template = none ∧
    (qtDeliver (qtStart 7 true) [1, 9, 0]).invoked = [[1, 9, 0]] ∧
    (9 : Int) ≠ 7 := by
  refine ⟨rfl, ?_, by decide⟩
  simp [qtDeliver, qtStart, templMatch]

/-- C3 (amended): for add-action codes 0/1 (head/tail) a freshly
spawned Synth or Group record's `group` field is set to the target
itself — whatever the target's kind, with no group check — and for
codes 2/3/4 (before/after/replace) it is set to the target's own
`group`. -/
theorem c3_spawn_group_membership :
    (∀ (s : SState) (dn : String) (args : List Arg) (t : Nat) (aa : AAKey)
        (code : Int) (trec : NodeRec) (s' : SState) (n : Nat),
      addActions aa = some code → s.heap.get? t = some trec →
      synthNew s dn args t aa = some (s', n) →
      ∃ nrec', s'.heap.get? n = some nrec' ∧
        ((code = 0 ∨ code = 1) → nrec'.group = some t) ∧
        ((code = 2 ∨ code = 3 ∨ code = 4) → nrec'.group = trec.group)) ∧
    (∀ (s : SState) (k : NodeKind) (t : Nat) (aa : AAKey)
        (code : Int) (trec : NodeRec) (s' : SState) (n : Nat),
      addActions aa = some code → s.heap.get? t = some trec →
      groupNew s k t aa = some (s', n) →
      ∃ nrec', s'.heap.get? n = some nrec' ∧
        ((code = 0 ∨ code = 1) → nrec'.group = some t) ∧
        ((code = 2 ∨ code = 3 ∨ code = 4) → nrec'.group = trec.group)) := by
  constructor
  · intro s dn args t aa code trec s' n ha ht he
    unfold synthNew at he
    rw [ha, ht] at he
    injection he with h2
    obtain ⟨hs, hn⟩ := Prod.ext_iff.mp h2
    dsimp only at hs hn
    subst hs
    subst hn
    refine ⟨_, List.get?_concat_length _ _, ?_, ?_⟩
    · intro hc
      have hlt2 : code < 2 := by rcases hc with h0 | h1 <;> omega
      show (if code < 2 then some t else trec.group) = some t
      rw [if_pos hlt2]
    · intro hc
      have hge2 : ¬ code < 2 := by rcases hc with h2 | h3 | h4 <;> omega
      show (if code < 2 then some t else trec.group) = trec.group
      rw [if_neg hge2]
  · intro s k t aa code trec s' n ha ht he
    unfold groupNew at he
    rw [ha, ht] at he
    injection he with h2
    obtain ⟨hs, hn⟩ := Prod.ext_iff.mp h2
    dsimp only at hs hn
    subst hs
    subst hn
    refine ⟨_, List.get?_concat_length _ _, ?_, ?_⟩
    · intro hc
      have hlt2 : code < 2 := by rcases hc with h0 | h1 <;> omega
      show (if code < 2 then some t else trec.group) = some t
      rw [if_pos hlt2]
    · intro hc
      have hge2 : ¬ code < 2 := by rcases hc with h2 | h3 | h4 <;> omega
      show (if code < 2 then some t else trec.group) = trec.group
      rw [if_neg hge2]

/-- Witness for C3 (amended): spawning a synth at the head of the
fixture's group (ref 0) parents it to ref 0; spawning a group after the
fixture's synth (ref 1) parents it to the synth's own group (ref 0). -/
theorem c3_spawn_group_membership_witness :
    (∃ p nrec', synthNew fixState "d" [] 0 (AAKey.num 0) = some p ∧
      p.1.heap.get? p.2 = some nrec' ∧ nrec'.group = some 0) ∧
    (∃ p nrec', groupNew fixState NodeKind.group 1 (AAKey.name "addAfter") = some p ∧
      p.1.heap.get? p.2 = some nrec' ∧ nrec'.group = some 0) := by
  constructor
  · cases hsome : synthNew fixState "d" [] 0 (AAKey.num 0) with
    | none => exact absurd hsome (by decide)
    | some p =>
      obtain ⟨nrec', hget, hhead, _⟩ :=
        c3_spawn_group_membership.1 fixState "d" [] 0 (AAKey.num 0) 0
          ⟨1, none, NodeKind.group, none, none, none⟩ p.1 p.2 rfl rfl (by rw [hsome])
      exact ⟨p, nrec', rfl, hget, hhead (Or.inl rfl)⟩
  · cases hsome : groupNew fixState NodeKind.group 1 (AAKey.name "addAfter") with
    | none => exact absurd hsome (by decide)
    | some p =>
      obtain ⟨nrec', hget, _, hafter⟩ :=
        c3_spawn_group_membership.2 fixState NodeKind.group 1 (AAKey.name "addAfter") 3
          ⟨2, some 0, NodeKind.synth, none, none, some "ping"⟩ p.1 p.2 rfl rfl (by rw [hsome])
      exact ⟨p, nrec', rfl, hget, hafter (Or.inr (Or.inl rfl))⟩

/-- Counterexample to C3 as stated: spawning with add-action `head` on
a target that is a synth (ref 1, whose own group is ref 0) still sets
the new record's `group` to the synth target itself (ref 1), not to the
target's own group as the claim requires for non-group targets. -/
theorem c3_counterexample_head_on_synth_target :
    (fixState.heap.get? 1).map (fun x => x.kind) = some NodeKind.synth ∧
    (fixState.heap.get? 1).map (fun x => x.group) = some (some 0) ∧
    (synthNew fixState "d" [] 1 (AAKey.name "addToHead")).map
      (fun p => (p.1.heap.get? p.2).map (fun x => x.group)) = some (some (some 1)) ∧
    (some (some (some (1 : Nat))) : Option (Option (Option Nat))) ≠ some (some (some 0)) := by
  exact ⟨rfl, rfl, rfl, by decide⟩

theorem groupRefOkB_mono (len len' : Nat) (h : len ≤ len') (nrec : NodeRec)
    (hok : groupRefOkB len nrec = true) : groupRefOkB len' nrec = true := by
  unfold groupRefOkB at *
  cases hg : nrec.group with
  | none => rfl
  | some g =>
    rw [hg] at hok
    simp only [decide_eq_true_eq] at hok ⊢
    omega

theorem refsOk_append (heap : List NodeRec) (nrec : NodeRec)
    (hold : ∀ x ∈ heap, groupRefOkB heap.length x = true)
    (hnew : groupRefOkB (heap.length + 1) nrec = true) :
    ∀ x ∈ heap ++ [nrec], groupRefOkB (heap ++ [nrec]).length x = true := by
  intro x hx
  have hlen : (heap ++ [nrec]).length = heap.length + 1 := by simp
  rw [hlen]
  rcases List.mem_append.mp hx with hmem | hmem
  · exact groupRefOkB_mono _ _ (by omega) x (hold x hmem)
  · have : x = nrec := by simpa using hmem
    rw [this]
    exact hnew

theorem refsOk_set (heap : List NodeRec) (r : Nat) (nrec : NodeRec)
    (hold : ∀ x ∈ heap, groupRefOkB heap.length x = true)
    (hnew : groupRefOkB heap.length nrec = true) :
    ∀ x ∈ heap.set r nrec, groupRefOkB (heap.set r nrec).length x = true := by
  intro x hx
  rw [List.length_set]
  rcases List.mem_or_eq_of_mem_set hx with hmem | hmem
  · exact hold x hmem
  · rw [hmem]
    exact hnew

theorem synthNew_shape (s : SState) (dn : String) (args : List Arg) (t : Nat)
    (aa : AAKey) (p : SState × Nat) (h : synthNew s dn args t aa = some p) :
    ∃ code trec, addActions aa = some code ∧ s.heap.get? t = some trec ∧
      p.1.heap = s.heap ++
        [⟨s.nextId, if code < 2 then some t else trec.group,
          NodeKind.synth, none, none, some dn⟩] ∧
      p.2 = s.heap.length := by
  unfold synthNew at h
  cases ha : addActions aa with
  | none => rw [ha] at h; exact absurd h (by simp)
  | some code =>
    rw [ha] at h
    cases ht : s.heap.get? t with
    | none => rw [ht] at h; exact absurd h (by simp)
    | some trec =>
      rw [ht] at h
      injection h with h2
      refine ⟨code, trec, rfl, rfl, ?_, ?_⟩
      · rw [← h2]
        rfl
      · rw [← h2]
        rfl

theorem groupNew_shape (s : SState) (k : NodeKind) (t : Nat)
    (aa : AAKey) (p : SState × Nat) (h : groupNew s k t aa = some p) :
    ∃ code trec, addActions aa = some code ∧ s.heap.get? t = some trec ∧
      p.1.heap = s.heap ++
        [⟨s.nextId, if code < 2 then some t else trec.group,
          k, none, none, none⟩] ∧
      p.2 = s.heap.length := by
  unfold groupNew at h
  cases ha : addActions aa with
  | none => rw [ha] at h; exact absurd h (by simp)
  | some code =>
    rw [ha] at h
    cases ht : s.heap.get? t with
    | none => rw [ht] at h; exact absurd h (by simp)
    | some trec =>
      rw [ht] at h
      injection h with h2
      refine ⟨code, trec, rfl, rfl, ?_, ?_⟩
      · rw [← h2]
        rfl
      · rw [← h2]
        rfl

theorem grOk_of_heap_eq (s s' : SState) (h : s'.heap = s.heap)
    (hok : GroupRefsOk s) : GroupRefsOk s' := by
  unfold GroupRefsOk at *
  rw [h]
  exact hok

theorem ancestor_bounded (s' : SState) (n : Nat)
    (hlow : ∀ b, b < n → ∀ c, parentOf s' b = some c → c < n)
    (hn : ∀ c, parentOf s' n = some c → c < n) :
    ∀ a b, NAncestor s' a b → b ≤ n → a < n := by
  intro a b h
  induction h with
  | parent hp =>
    intro hb
    rcases Nat.eq_or_lt_of_le hb with he | hlt
    · subst he
      exact hn _ hp
    · exact hlow _ hlt _ hp
  | step hp _ ih =>
    intro hb
    refine ih (Nat.le_of_lt ?_)
    rcases Nat.eq_or_lt_of_le hb with he | hlt
    · subst he
      exact hn _ hp
    · exact hlow _ hlt _ hp

theorem fresh_spawn_no_self_ancestor (s' s : SState) (nrec : NodeRec)
    (hheap : s'.heap = s.heap ++ [nrec])
    (hok : GroupRefsOk s)
    (hg : ∀ g, nrec.group = some g → g < s.heap.length) :
    ¬ NAncestor s' s.heap.length s.heap.length := by
  intro h
  have hlow : ∀ b, b < s.heap.length → ∀ c, parentOf s' b = some c →
      c < s.heap.length := by
    intro b hb c hp
    unfold parentOf at hp
    rw [hheap, List.get?_append hb] at hp
    cases hgb : s.heap.get? b with
    | none => rw [hgb] at hp; simp at hp
    | some rec0 =>
      rw [hgb] at hp
      simp only [Option.some_bind] at hp
      have hmem := hok rec0 (List.get?_mem hgb)
      unfold groupRefOkB at hmem
      rw [hp] at hmem
      simpa using hmem
  have hn : ∀ c, parentOf s' s.heap.length = some c → c < s.heap.length := by
    intro c hp
    unfold parentOf at hp
    rw [hheap, List.get?_concat_length] at hp
    simp only [Option.some_bind] at hp
    exact hg c hp
  exact absurd (ancestor_bounded s' s.heap.length hlow hn _ _ h (Nat.le_refl _))
    (lt_irrefl _)

/-- C4 (amended): every operation keeps each record's `group` field
either `none` or a reference to an existing record; `RootNode`
construction makes the root its own parent; and a freshly spawned Synth
or Group record is never its own ancestor right after construction
(although the root's self-reference, and later moves, do create
cycles). -/
theorem c4_group_field_and_cycles :
    (∀ (s : SState) (op : Op) (s' : SState),
      GroupRefsOk s → step s op = some s' → GroupRefsOk s') ∧
    (∀ (s : SState) (srvName : String), lookupRoot s.roots srvName = none →
      parentOf (rootNodeNew s srvName).1 (rootNodeNew s srvName).2 =
        some (rootNodeNew s srvName).2) ∧
    (∀ (s : SState) (dn : String) (args : List Arg) (t : Nat) (aa : AAKey)
        (p : SState × Nat), GroupRefsOk s →
      synthNew s dn args t aa = some p → ¬ NAncestor p.1 p.2 p.2) ∧
    (∀ (s : SState) (k : NodeKind) (t : Nat) (aa : AAKey)
        (p : SState × Nat), GroupRefsOk s →
      groupNew s k t aa = some p → ¬ NAncestor p.1 p.2 p.2) := by
  refine ⟨?_, ?_, ?_, ?_⟩
  · intro s op s' hok hstep
    cases op with
    | opSynthNew dn args t aa =>
      simp only [step] at hstep
      obtain ⟨p, hp, rfl⟩ := Option.map_eq_some'.mp hstep
      obtain ⟨code, trec, ha, ht, hheap, _⟩ := synthNew_shape _ _ _ _ _ _ hp
      have hlt : t < s.heap.length := (List.get?_eq_some.mp ht).1
      unfold GroupRefsOk
      rw [hheap]
      apply refsOk_append _ _ hok
      unfold groupRefOkB
      dsimp only
      by_cases hc : code < 2
      · rw [if_pos hc]
        simp only [decide_eq_true_eq]
        omega
      · rw [if_neg hc]
        cases hgt : trec.group with
        | none => rfl
        | some g =>
          have hmem := hok trec (List.get?_mem ht)
          unfold groupRefOkB at hmem
          rw [hgt] at hmem
          simp only [decide_eq_true_eq] at hmem ⊢
          omega
    | opGroupNew k t aa =>
      simp only [step] at hstep
      obtain ⟨p, hp, rfl⟩ := Option.map_eq_some'.mp hstep
      obtain ⟨code, trec, ha, ht, hheap, _⟩ := groupNew_shape _ _ _ _ _ hp
      have hlt : t < s.heap.length := (List.get?_eq_some.mp ht).1
      unfold GroupRefsOk
      rw [hheap]
      apply refsOk_append _ _ hok
      unfold groupRefOkB
      dsimp only
      by_cases hc : code < 2
      · rw [if_pos hc]
        simp only [decide_eq_true_eq]
        omega
      · rw [if_neg hc]
        cases hgt : trec.group with
        | none => rfl
        | some g =>
          have hmem := hok trec (List.get?_mem ht)
          unfold groupRefOkB at hmem
          rw [hgt] at hmem
          simp only [decide_eq_true_eq] at hmem ⊢
          omega
    | opBasicNew k dn nid =>
      simp only [step] at hstep
      injection hstep with h2
      rw [← h2]
      cases nid with
      | none => exact refsOk_append s.heap _ hok rfl
      | some x => exact refsOk_append s.heap _ hok rfl
    | opRootNew srv =>
      simp only [step] at hstep
      injection hstep with h2
      rw [← h2]
      unfold rootNodeNew
      cases hl : lookupRoot s.roots srv with
      | some r => exact hok
      | none =>
        apply refsOk_append _ _ hok
        unfold groupRefOkB
        simp
    | opNewReplace r dn args si =>
      simp only [step] at hstep
      obtain ⟨p, hp, rfl⟩ := Option.map_eq_some'.mp hstep
      unfold newReplace at hp
      cases hr : s.heap.get? r with
      | none => rw [hr] at hp; exact absurd hp (by simp)
      | some nrec =>
        rw [hr] at hp
        injection hp with h2
        rw [← h2]
        cases si with
        | true => exact refsOk_append s.heap _ hok rfl
        | false => exact refsOk_append s.heap _ hok rfl
    | opFree r f =>
      simp only [step] at hstep
      unfold nodeFree at hstep
      cases hr : s.heap.get? r with
      | none => rw [hr] at hstep; exact absurd hstep (by simp)
      | some nrec =>
        rw [hr] at hstep
        injection hstep with h2
        rw [← h2]
        cases f with
        | true => exact refsOk_set s.heap r _ hok rfl
        | false => exact refsOk_set s.heap r _ hok rfl
    | opRun r f =>
      simp only [step] at hstep
      unfold nodeRun at hstep
      obtain ⟨nrec, hr, rfl⟩ := Option.map_eq_some'.mp hstep
      exact grOk_of_heap_eq _ _ rfl hok
    | opRelease r t0 =>
      simp only [step] at hstep
      unfold nodeRelease at hstep
      obtain ⟨nrec, hr, rfl⟩ := Option.map_eq_some'.mp hstep
      exact grOk_of_heap_eq _ _ rfl hok
    | opMoveBefore r o =>
      simp only [step] at hstep
      unfold moveBefore at hstep
      cases hr : s.heap.get? r with
      | none => rw [hr] at hstep; exact absurd hstep (by simp)
      | some nrec =>
        cases ho : s.heap.get? o with
        | none => rw [hr, ho] at hstep; exact absurd hstep (by simp)
        | some orec =>
          rw [hr, ho] at hstep
          injection hstep with h2
          rw [← h2]
          exact refsOk_set s.heap r _ hok (hok orec (List.get?_mem ho))
    | opMoveAfter r o =>
      simp only [step] at hstep
      unfold moveAfter at hstep
      cases hr : s.heap.get? r with
      | none => rw [hr] at hstep; exact absurd hstep (by simp)
      | some nrec =>
        cases ho : s.heap.get? o with
        | none => rw [hr, ho] at hstep; exact absurd hstep (by simp)
        | some orec =>
          rw [hr, ho] at hstep
          injection hstep with h2
          rw [← h2]
          exact refsOk_set s.heap r _ hok (hok orec (List.get?_mem ho))
    | opMoveNodeToHead g n =>
      simp only [step] at hstep
      unfold moveNodeToHead at hstep
      cases hg : s.heap.get? g with
      | none => rw [hg] at hstep; exact absurd hstep (by simp)
      | some grec =>
        cases hn : s.heap.get? n with
        | none => rw [hg, hn] at hstep; exact absurd hstep (by simp)
        | some nrec =>
          rw [hg, hn] at hstep
          injection hstep with h2
          rw [← h2]
          apply refsOk_set s.heap n _ hok
          unfold groupRefOkB
          have : g < s.heap.length := (List.get?_eq_some.mp hg).1
          simpa using this
    | opMoveNodeToTail g n =>
      simp only [step] at hstep
      unfold moveNodeToTail at hstep
      cases hg : s.heap.get? g with
      | none => rw [hg] at hstep; exact absurd hstep (by simp)
      | some grec =>
        cases hn : s.heap.get? n with
        | none => rw [hg, hn] at hstep; exact absurd hstep (by simp)
        | some nrec =>
          rw [hg, hn] at hstep
          injection hstep with h2
          rw [← h2]
          apply refsOk_set s.heap n _ hok
          unfold groupRefOkB
          have : g < s.heap.length := (List.get?_eq_some.mp hg).1
          simpa using this
    | opRootRun =>
      simp only [step] at hstep
      injection hstep with h2
      rw [← h2]
      exact grOk_of_heap_eq _ _ rfl hok
    | opRootFree =>
      simp only [step] at hstep
      injection hstep with h2
      rw [← h2]
      exact grOk_of_heap_eq _ _ rfl hok
    | opRootMoveBefore =>
      simp only [step] at hstep
      injection hstep with h2
      rw [← h2]
      exact grOk_of_heap_eq _ _ rfl hok
    | opRootMoveAfter =>
      simp only [step] at hstep
      injection hstep with h2
      rw [← h2]
      exact grOk_of_heap_eq _ _ rfl hok
    | opRootMoveToHead =>
      simp only [step] at hstep
      injection hstep with h2
      rw [← h2]
      exact grOk_of_heap_eq _ _ rfl hok
    | opRootMoveToTail =>
      simp only [step] at hstep
      injection hstep with h2
      rw [← h2]
      exact grOk_of_heap_eq _ _ rfl hok
  · intro s srvName hnone
    unfold rootNodeNew
    simp only [hnone]
    unfold parentOf
    rw [List.get?_concat_length]
    rfl
  · intro s dn args t aa p hok hp
    obtain ⟨code, trec, ha, ht, hheap, href⟩ := synthNew_shape _ _ _ _ _ _ hp
    have hlt : t < s.heap.length := (List.get?_eq_some.mp ht).1
    rw [href]
    apply fresh_spawn_no_self_ancestor _ s _ hheap hok
    intro g hg
    dsimp only at hg
    by_cases hc : code < 2
    · rw [if_pos hc] at hg
      injection hg with h3
      omega
    · rw [if_neg hc] at hg
      have hmem := hok trec (List.get?_mem ht)
      unfold groupRefOkB at hmem
      rw [hg] at hmem
      simpa using hmem
  · intro s k t aa p hok hp
    obtain ⟨code, trec, ha, ht, hheap, href⟩ := groupNew_shape _ _ _ _ _ hp
    have hlt : t < s.heap.length := (List.get?_eq_some.mp ht).1
    rw [href]
    apply fresh_spawn_no_self_ancestor _ s _ hheap hok
    intro g hg
    dsimp only at hg
    by_cases hc : code < 2
    · rw [if_pos hc] at hg
      injection hg with h3
      omega
    · rw [if_neg hc] at hg
      have hmem := hok trec (List.get?_mem ht)
      unfold groupRefOkB at hmem
      rw [hg] at hmem
      simpa using hmem

/-- Counterexample to C4 as stated: constructing the root node on the
concrete fixture state yields a record that is its own parent
(`RootNode.__new__` sets `obj.group = obj`), hence its own ancestor. -/
theorem c4_counterexample_root_self_ancestor :
    NAncestor (rootNodeNew fixState "default").1 (rootNodeNew fixState "default").2
      (rootNodeNew fixState "default").2 := by
  apply NAncestor.parent
  rfl

theorem fixState_refs_ok : GroupRefsOk fixState := by
  intro x hx
  simp only [fixState, List.mem_cons, List.not_mem_nil, or_false] at hx
  rcases hx with h | h
  · rw [h]
    rfl
  · rw [h]
    rfl

/-- Witness for C4 (amended) at concrete inputs: a free step preserves
the reference invariant, root construction yields a self-parent, and
concrete synth/group spawns are not their own ancestors. -/
theorem c4_group_field_and_cycles_witness :
    (∃ s', step fixState (Op.opFree 1 true) = some s' ∧ GroupRefsOk s') ∧
    parentOf (rootNodeNew fixState "root1").1 (rootNodeNew fixState "root1").2 =
      some (rootNodeNew fixState "root1").2 ∧
    (∃ p, synthNew fixState "d" [] 0 (AAKey.num 0) = some p ∧
      ¬ NAncestor p.1 p.2 p.2) ∧
    (∃ p, groupNew fixState NodeKind.group 0 (AAKey.num 1) = some p ∧
      ¬ NAncestor p.1 p.2 p.2) := by
  refine ⟨?_, c4_group_field_and_cycles.2.1 fixState "root1" rfl, ?_, ?_⟩
  · refine ⟨_, rfl, ?_⟩
    exact c4_group_field_and_cycles.1 fixState (Op.opFree 1 true) _ fixState_refs_ok rfl
  · cases hsome : synthNew fixState "d" [] 0 (AAKey.num 0) with
    | none => exact absurd hsome (by decide)
    | some p =>
      exact ⟨p, rfl, c4_group_field_and_cycles.2.2.1 fixState "d" [] 0 (AAKey.num 0) p
        fixState_refs_ok hsome⟩
  · cases hsome : groupNew fixState NodeKind.group 0 (AAKey.num 1) with
    | none => exact absurd hsome (by decide)
    | some p =>
      exact ⟨p, rfl, c4_group_field_and_cycles.2.2.2 fixState NodeKind.group 0 (AAKey.num 1) p
        fixState_refs_ok hsome⟩

/-- C1: decoding a flat reply that encodes a group `G` with exactly two
children — an empty nested group `E` and a synth `S` (definition `D`)
with two distinctly named controls — with the controls flag set yields
a nested mapping whose `G` entry holds exactly those two child keys in
order, whose synth entry maps both control names to their values in
payload order, and whose final cursor (6, the synth record's start)
skips to exactly the payload's length: nothing is left over. -/
theorem c1_tree_reply_round_trip :
    ∀ (f G E S D n1 v1 n2 v2 : Int), f ≠ 0 → n1 ≠ n2 →
      decodeTree [0, f, G, 2, E, 0, S, -1, D, 2, n1, v1, n2, v2] =
        Except.ok ([(QKey.group G, QVal.group
          [(QKey.group E, QVal.group []),
           (QKey.synth S D, QVal.synth [(n1, v1), (n2, v2)])])], 6) ∧
      skipPhase [0, f, G, 2, E, 0, S, -1, D, 2, n1, v1, n2, v2] true 6 =
        Except.ok ((14 : Int)) ∧
      ([0, f, G, 2, E, 0, S, -1, D, 2, n1, v1, n2, v2] : List Int).length = 14 := by
  intro f G E S D n1 v1 n2 v2 hf hn
  refine ⟨?_, rfl, rfl⟩
  have hstep1 : decodeTree [0, f, G, 2, E, 0, S, -1, D, 2, n1, v1, n2, v2] =
      (let pc := if f = 0 then false else true
       Except.bind (pyGet [0, f, G, 2, E, 0, S, -1, D, 2, n1, v1, n2, v2] 2) fun g =>
       Except.bind (pyGet [0, f, G, 2, E, 0, S, -1, D, 2, n1, v1, n2, v2] 3) fun n =>
       if 0 < n then
         Except.bind (dumpFunc [0, f, G, 2, E, 0, S, -1, D, 2, n1, v1, n2, v2] pc 29 [] n.toNat 2)
           (fun r => Except.ok ([(QKey.group g, QVal.group r.1)], r.2))
       else Except.ok ([(QKey.group g, QVal.group [])], 2)) := rfl
  rw [hstep1]
  simp only [if_neg hf]
  apply Eq.trans (b := Except.ok ([(QKey.group G, QVal.group
      [(QKey.group E, QVal.group []),
       (QKey.synth S D, QVal.synth (dictSet [(n1, v1)] n2 v2))])], 6))
  · rfl
  · rw [show dictSet [(n1, v1)] n2 v2 = [(n1, v1), (n2, v2)] from by
      unfold dictSet
      rw [if_neg hn]
      rfl]

/-- Witness for C1: the round trip at a fully concrete payload. -/
theorem c1_tree_reply_round_trip_witness :
    decodeTree [0, 1, 100, 2, 101, 0, 102, -1, 7, 2, 30, 10, 31, 20] =
      Except.ok ([(QKey.group 100, QVal.group
        [(QKey.group 101, QVal.group []),
         (QKey.synth 102 7, QVal.synth [(30, 10), (31, 20)])])], 6) ∧
    skipPhase [0, 1, 100, 2, 101, 0, 102, -1, 7, 2, 30, 10, 31, 20] true 6 =
      Except.ok ((14 : Int)) := by
  obtain ⟨h1, h2, _⟩ :=
    c1_tree_reply_round_trip 1 100 101 102 7 30 10 31 20 (by decide) (by decide)
  exact ⟨h1, h2⟩

theorem bind_ok_iff {α β : Type} (x : Except DErr α) (f : α → Except DErr β) (b : β) :
    (x >>= f) = Except.ok b ↔ ∃ a, x = Except.ok a ∧ f a = Except.ok b := by
  cases x <;> simp [Bind.bind, Except.bind]

theorem synthsEmptyD_dictSet (acc : List (QKey × QVal)) (k : QKey) (v : QVal)
    (hacc : synthsEmptyD acc) (hv : synthsEmpty v) : synthsEmptyD (dictSet acc k v) := by
  induction acc with
  | nil => exact ⟨hv, trivial⟩
  | cons p rest ih =>
    obtain ⟨hp, hrest⟩ := hacc
    obtain ⟨k0, v0⟩ := p
    unfold dictSet
    by_cases hk : k0 = k
    · rw [if_pos hk]
      exact ⟨hv, hrest⟩
    · rw [if_neg hk]
      exact ⟨hp, ih hrest⟩

theorem dumpFunc_synthsEmpty (msg : List Int) :
    ∀ (fuel : Nat) (acc : List (QKey × QVal)) (n : Nat) (i : Int)
      (l : List (QKey × QVal)) (i2 : Int),
      synthsEmptyD acc →
      dumpFunc msg false fuel acc n i = Except.ok (l, i2) →
      synthsEmptyD l := by
  intro fuel
  induction fuel with
  | zero =>
    intro acc n i l i2 hacc h
    exact absurd h (by simp [dumpFunc])
  | succ fuel ih =>
    intro acc n i l i2 hacc h
    cases n with
    | zero =>
      have h2 : Except.ok ((acc, i) : List (QKey × QVal) × Int) = Except.ok (l, i2) := h
      injection h2 with h3
      injection h3 with h4 h5
      rw [← h4]
      exact hacc
    | succ n =>
      simp only [dumpFunc] at h
      rw [bind_ok_iff] at h
      obtain ⟨i0, hsk, h⟩ := h
      rw [bind_ok_iff] at h
      obtain ⟨nid, hnid, h⟩ := h
      rw [bind_ok_iff] at h
      obtain ⟨b, hb, h⟩ := h
      by_cases hble : (0 : Int) ≤ b
      · rw [if_pos hble] at h
        by_cases hblt : (0 : Int) < b
        · rw [if_pos hblt] at h
          rw [bind_ok_iff] at h
          obtain ⟨r, hr, h⟩ := h
          have hre : synthsEmptyD r.1 := by
            obtain ⟨r1, r2⟩ := r
            exact ih [] b.toNat i0 r1 r2 trivial hr
          exact ih _ n _ l i2 (synthsEmptyD_dictSet acc (QKey.group nid) (QVal.group r.1)
            hacc (show synthsEmpty (QVal.group r.1) from hre)) h
        · rw [if_neg hblt] at h
          exact ih _ n _ l i2 (synthsEmptyD_dictSet acc (QKey.group nid) (QVal.group [])
            hacc (show synthsEmpty (QVal.group []) from trivial)) h
      · rw [if_neg hble] at h
        rw [bind_ok_iff] at h
        obtain ⟨d, hd, h⟩ := h
        simp only [Bool.false_eq_true, if_false] at h
        exact ih _ n _ l i2 (synthsEmptyD_dictSet acc (QKey.synth nid d) (QVal.synth [])
          hacc (show synthsEmpty (QVal.synth []) from rfl)) h

/-- C7: with the controls flag cleared (`msg[1] = 0`) the decoder never
reads control-count or control-pair fields: every synth entry of every
successfully decoded payload carries an empty control dictionary, and
on the concrete family `[0, 0, G, 1, S, -1, D] ++ extra` the synth
entry advances the cursor by exactly three scalars (the skip from the
final cursor 4 lands on 7, the end of the synth record) and the result
is independent of the arbitrary scalars `extra` occupying the positions
that a controls-included layout would use. -/
theorem c7_decoder_flag_cleared :
    (∀ (msg : List Int) (d : List (QKey × QVal)) (i2 : Int),
      msg.get? 1 = some 0 → decodeTree msg = Except.ok (d, i2) →
      synthsEmptyD d) ∧
    (∀ (G S D : Int) (extra : List Int),
      decodeTree ([0, 0, G, 1, S, -1, D] ++ extra) =
        Except.ok ([(QKey.group G, QVal.group [(QKey.synth S D, QVal.synth [])])], 4) ∧
      skipPhase ([0, 0, G, 1, S, -1, D] ++ extra) false 4 = Except.ok 7) := by
  constructor
  · intro msg d i2 hflag hdec
    have hpy : pyGet msg 1 = Except.ok 0 := by
      have h0 : pyGet msg 1 = (match msg.get? 1 with
        | some w => Except.ok w
        | none => Except.error DErr.idx) := rfl
      rw [h0, hflag]
    unfold decodeTree at hdec
    rw [bind_ok_iff] at hdec
    obtain ⟨f, hf, hdec⟩ := hdec
    have hf0 : f = 0 := by
      rw [hpy] at hf
      injection hf with h
      exact h.symm
    subst hf0
    rw [show (if (0 : Int) = 0 then false else true) = false from rfl] at hdec
    rw [bind_ok_iff] at hdec
    obtain ⟨g, hg, hdec⟩ := hdec
    rw [bind_ok_iff] at hdec
    obtain ⟨n, hn, hdec⟩ := hdec
    split at hdec
    · rw [bind_ok_iff] at hdec
      obtain ⟨r, hr, hdec⟩ := hdec
      have hde : Except.ok (([(QKey.group g, QVal.group r.1)], r.2) :
          List (QKey × QVal) × Int) = Except.ok (d, i2) := hdec
      injection hde with h3
      injection h3 with h4 h5
      rw [← h4]
      refine ⟨?_, trivial⟩
      obtain ⟨r1, r2⟩ := r
      exact dumpFunc_synthsEmpty msg _ [] _ 2 r1 r2 trivial hr
    · have hde : Except.ok (([(QKey.group g, QVal.group [])], (2 : Int)) :
          List (QKey × QVal) × Int) = Except.ok (d, i2) := hdec
      injection hde with h3
      injection h3 with h4 h5
      rw [← h4]
      exact ⟨trivial, trivial⟩
  · intro G S D extra
    exact ⟨rfl, rfl⟩

/-- Witness for C7: a concrete flag-cleared payload with junk after the
synth record decodes to an empty control mapping, and the junk is
ignored. -/
theorem c7_decoder_flag_cleared_witness :
    synthsEmptyD [(QKey.group 100, QVal.group [(QKey.synth 102 7, QVal.synth [])])] ∧
    decodeTree ([0, 0, 100, 1, 102, -1, 7] ++ [5, 99]) =
      Except.ok ([(QKey.group 100, QVal.group [(QKey.synth 102 7, QVal.synth [])])], 4) ∧
    skipPhase ([0, 0, 100, 1, 102, -1, 7] ++ [5, 99]) false 4 = Except.ok 7 := by
  refine ⟨?_, (c7_decoder_flag_cleared.2 100 102 7 [5, 99]).1,
    (c7_decoder_flag_cleared.2 100 102 7 [5, 99]).2⟩
  exact c7_decoder_flag_cleared.1 [0, 0, 100, 1, 102, -1, 7, 5, 99]
    [(QKey.group 100, QVal.group [(QKey.synth 102 7, QVal.synth [])])] 4 rfl (by rfl)

theorem ebind_ok {α β : Type} (a : α) (f : α → Except DErr β) :
    (Except.ok a >>= f) = f a := rfl

theorem ebind_err {α β : Type} (e : DErr) (f : α → Except DErr β) :
    ((Except.error e : Except DErr α) >>= f) = Except.error e := rfl

theorem pyGet_nat (msg : List Int) (off : Int) (k : Nat) (hoff : off = (k : Int)) :
    pyGet msg off = (match msg.get? k with
      | some v => Except.ok v
      | none => Except.error DErr.idx) := by
  subst hoff
  simp only [pyGet]
  rw [if_neg (show ¬ ((k : Int) < 0) by omega)]
  rw [if_pos (Int.natCast_nonneg k), Int.toNat_natCast]

theorem pyGet_oob (msg : List Int) (off : Int) (hoff : (msg.length : Int) ≤ off) :
    pyGet msg off = Except.error DErr.idx := by
  have hk : off = (off.toNat : Int) := by omega
  rw [pyGet_nat msg off off.toNat hk]
  rw [List.get?_eq_none.mpr (by omega)]

theorem pyGet_mid (pre mid post : List Int) (k : Nat) (off : Int) (v : Int)
    (hoff : off = ((pre.length + k : Nat) : Int)) (h : mid.get? k = some v) :
    pyGet (pre ++ mid ++ post) off = Except.ok v := by
  have hk : k < mid.length := (List.get?_eq_some.mp h).1
  rw [pyGet_nat _ _ (pre.length + k) hoff]
  rw [List.append_assoc, List.get?_append_right (Nat.le_add_right _ _)]
  have h2 : pre.length + k - pre.length = k := by omega
  rw [h2, List.get?_append hk, h]

theorem pyGet_in_range (msg : List Int) (off : Int) (h0 : 0 ≤ off)
    (hlt : off < (msg.length : Int)) : ∃ v, pyGet msg off = Except.ok v := by
  have hk : off = (off.toNat : Int) := by omega
  cases hget : msg.get? off.toNat with
  | none =>
    have := List.get?_eq_none.mp hget
    omega
  | some v =>
    refine ⟨v, ?_⟩
    rw [pyGet_nat msg off off.toNat hk, hget]

theorem encCtrls_length (l : List (Int × Int)) : (encCtrls l).length = 2 * l.length := by
  induction l with
  | nil => rfl
  | cons p rest ih =>
    obtain ⟨a, b⟩ := p
    simp [encCtrls, ih]
    omega

theorem encNode_length_ge (pc : Bool) (t : NTree) : 2 ≤ (encNode pc t).length := by
  cases t with
  | group g cs => simp [encNode]
  | synth sid d ctrls =>
    cases pc <;> simp [encNode]

theorem dumpFunc_cons (msg : List Int) (pc : Bool) (fuel : Nat)
    (acc : List (QKey × QVal)) (n : Nat) (i : Int) :
    dumpFunc msg pc (fuel + 1) acc (n + 1) i =
      (processOne msg pc fuel i) >>= fun r =>
        dumpFunc msg pc fuel (dictSet acc r.1 r.2.1) n r.2.2 := by
  simp only [dumpFunc, processOne]
  cases skipPhase msg pc i with
  | error e => rfl
  | ok i0 =>
    rw [ebind_ok, ebind_ok]
    cases pyGet msg i0 with
    | error e => rfl
    | ok nid =>
      rw [ebind_ok, ebind_ok]
      cases pyGet msg (i0 + 1) with
      | error e => rfl
      | ok b =>
        rw [ebind_ok, ebind_ok]
        by_cases hb : (0 : Int) ≤ b
        · rw [if_pos hb, if_pos hb]
          by_cases hb2 : (0 : Int) < b
          · rw [if_pos hb2, if_pos hb2]
            cases dumpFunc msg pc fuel [] b.toNat i0 with
            | error e => rfl
            | ok r => rfl
          · rw [if_neg hb2, if_neg hb2]
            rfl
        · rw [if_neg hb, if_neg hb]
          cases pyGet msg (i0 + 2) with
          | error e => rfl
          | ok d =>
            rw [ebind_ok, ebind_ok]
            cases pc with
            | true =>
              simp only [if_pos]
              cases pyGet msg (i0 + 3) with
              | error e => rfl
              | ok c =>
                rw [ebind_ok, ebind_ok]
                cases readPairs msg i0 c.toNat 0 [] with
                | error e => rfl
                | ok ctrls => rfl
            | false =>
              simp only [Bool.false_eq_true, if_false]
              rfl

theorem readPairs_ok (l : List (Int × Int)) :
    ∀ (pre post : List Int) (s j : Nat) (acc : List (Int × Int)),
      pre.length = s + 4 + j →
      readPairs (pre ++ encCtrls l ++ post) ((s : Int)) l.length j acc =
        Except.ok (l.foldl (fun a p => dictSet a p.1 p.2) acc) := by
  induction l with
  | nil =>
    intro pre post s j acc hpre
    rfl
  | cons p rest ih =>
    obtain ⟨a, b⟩ := p
    intro pre post s j acc hpre
    simp only [readPairs, List.length_cons]
    rw [pyGet_mid pre (encCtrls ((a, b) :: rest)) post 0 ((s : Int) + 4 + (j : Int))
      a (by push_cast; omega) rfl]
    rw [ebind_ok]
    rw [pyGet_mid pre (encCtrls ((a, b) :: rest)) post 1 ((s : Int) + 5 + (j : Int))
      b (by push_cast; omega) rfl]
    rw [ebind_ok]
    have hmove : pre ++ encCtrls ((a, b) :: rest) ++ post =
        (pre ++ [a, b]) ++ encCtrls rest ++ post := by
      simp [encCtrls, List.append_assoc]
    rw [hmove]
    rw [ih (pre ++ [a, b]) post s (j + 2) (dictSet acc a b) (by simp; omega)]
    rfl

theorem readPairs_fail (C : Nat) : ∀ (msg : List Int) (s j : Nat) (acc : List (Int × Int)),
    1 ≤ C → (msg.length : Int) < (s : Int) + 4 + (j : Int) + 2 * C →
    readPairs msg ((s : Int)) C j acc = Except.error DErr.idx := by
  induction C with
  | zero =>
    intro msg s j acc h1 _
    omega
  | succ t ih =>
    intro msg s j acc h1 hlen
    simp only [readPairs]
    by_cases hc1 : (msg.length : Int) ≤ (s : Int) + 4 + (j : Int)
    · rw [pyGet_oob _ _ hc1, ebind_err]
    · obtain ⟨v, hv⟩ := pyGet_in_range msg ((s : Int) + 4 + (j : Int)) (by omega) (by omega)
      rw [hv, ebind_ok]
      by_cases hc2 : (msg.length : Int) ≤ (s : Int) + 5 + (j : Int)
      · rw [pyGet_oob _ _ hc2, ebind_err]
      · obtain ⟨w, hw⟩ := pyGet_in_range msg ((s : Int) + 5 + (j : Int)) (by omega) (by omega)
        rw [hw, ebind_ok]
        cases t with
        | zero => omega
        | succ t2 =>
          apply ih msg s (j + 2) (dictSet acc v w) (by omega)
          push_cast
          push_cast at hlen
          omega

theorem skip_group_header (pre mid post : List Int) (pc : Bool) (cnt : Int)
    (hmid : mid.get? 1 = some cnt) (hcnt : 0 ≤ cnt) :
    skipPhase (pre ++ mid ++ post) pc ((pre.length : Int)) =
      Except.ok ((pre.length : Int) + 2) := by
  unfold skipPhase
  rw [pyGet_mid pre mid post 1 ((pre.length : Int) + 1) cnt (by push_cast; ring) hmid]
  rw [ebind_ok, if_pos hcnt]
  rfl

theorem skip_synth_pc (pre mid post : List Int) (c : Int)
    (hm1 : mid.get? 1 = some (-1)) (hm3 : mid.get? 3 = some c) :
    skipPhase (pre ++ mid ++ post) true ((pre.length : Int)) =
      Except.ok ((pre.length : Int) + (c * 2 + 1) + 3) := by
  unfold skipPhase
  rw [pyGet_mid pre mid post 1 ((pre.length : Int) + 1) (-1) (by push_cast; ring) hm1]
  rw [ebind_ok, if_neg (by norm_num), if_pos rfl]
  rw [pyGet_mid pre mid post 3 ((pre.length : Int) + 3) c (by push_cast; ring) hm3]
  rw [ebind_ok]
  rfl

theorem skip_synth_nopc (pre mid post : List Int)
    (hm1 : mid.get? 1 = some (-1)) :
    skipPhase (pre ++ mid ++ post) false ((pre.length : Int)) =
      Except.ok ((pre.length : Int) + 3) := by
  unfold skipPhase
  rw [pyGet_mid pre mid post 1 ((pre.length : Int) + 1) (-1) (by push_cast; ring) hm1]
  rw [ebind_ok, if_neg (by norm_num)]
  rfl

theorem decoder_ok : ∀ N : Nat,
    (∀ t : NTree, sizeOf t ≤ N → StepOKStmt t) ∧
    (∀ l : List NTree, sizeOf l ≤ N → SeqOKStmt l) := by
  intro N
  induction N using Nat.strong_induction_on with
  | _ N ih =>
  constructor
  · intro t hts pc pre post i fuel hskip hi hfuel
    cases t with
    | group g cs =>
      cases cs with
      | nil =>
        have hmid : encNode pc (NTree.group g []) = [g, 0] := rfl
        rw [hmid] at hskip hfuel ⊢
        refine ⟨(pre.length : Int), Int.natCast_nonneg _, ?_, ?_⟩
        · unfold processOne
          rw [hskip, ebind_ok]
          rw [pyGet_mid pre [g, 0] post 0 ((pre.length : Int)) g (by push_cast; ring) rfl]
          rw [ebind_ok]
          rw [pyGet_mid pre [g, 0] post 1 ((pre.length : Int) + 1) 0 (by push_cast; ring) rfl]
          rw [ebind_ok]
          rw [if_pos (le_refl (0 : Int)), if_neg (lt_irrefl (0 : Int))]
          rfl
        · rw [skip_group_header pre [g, 0] post pc 0 rfl (le_refl 0)]
          have hc : ((pre.length + ([g, (0 : Int)] : List Int).length : Nat) : Int) =
              (pre.length : Int) + 2 := by
            simp
          rw [hc]
      | cons c0 cs' =>
        have hmid : encNode pc (NTree.group g (c0 :: cs')) =
            g :: (((c0 :: cs').length : Int) :: encSeq pc (c0 :: cs')) := rfl
        rw [hmid] at hskip hfuel ⊢
        have hmsg1 : pre ++ (g :: (((c0 :: cs').length : Int) :: encSeq pc (c0 :: cs'))) ++ post =
            (pre ++ [g, ((c0 :: cs').length : Int)]) ++ encSeq pc (c0 :: cs') ++ post := by
          simp [List.append_assoc]
        have hskip2 : skipPhase
            (pre ++ (g :: (((c0 :: cs').length : Int) :: encSeq pc (c0 :: cs'))) ++ post) pc
            ((pre.length : Int)) = Except.ok ((pre.length : Int) + 2) :=
          skip_group_header pre _ post pc (((c0 :: cs').length : Nat) : Int) rfl
            (Int.natCast_nonneg _)
        have hSeq := (ih (sizeOf (c0 :: cs')) (by
            have hsz := NTree.group.sizeOf_spec g (c0 :: cs')
            omega)).2 (c0 :: cs') le_rfl
        have hlen2 : (((pre ++ [g, ((c0 :: cs').length : Int)]).length : Nat) : Int) =
            (pre.length : Int) + 2 := by
          simp
        have hskip2' : skipPhase ((pre ++ [g, ((c0 :: cs').length : Int)]) ++
            encSeq pc (c0 :: cs') ++ post) pc ((pre.length : Int)) =
            Except.ok (((pre ++ [g, ((c0 :: cs').length : Int)]).length : Int)) := by
          rw [← hmsg1, hskip2, hlen2]
        have hfuel2 : 2 * ((pre ++ [g, ((c0 :: cs').length : Int)]) ++
            encSeq pc (c0 :: cs') ++ post).length <
            fuel + 2 * (pre ++ [g, ((c0 :: cs').length : Int)]).length := by
          rw [← hmsg1]
          simp only [List.length_append, List.length_cons, List.length_nil] at hfuel ⊢
          omega
        obtain ⟨iF, hiF0, hdump, hskipF⟩ := hSeq pc (pre ++ [g, ((c0 :: cs').length : Int)])
          post [] ((pre.length : Int)) fuel hskip2' (Int.natCast_nonneg _) hfuel2
        refine ⟨iF, hiF0, ?_, ?_⟩
        · unfold processOne
          rw [hskip, ebind_ok]
          rw [pyGet_mid pre (g :: (((c0 :: cs').length : Int) :: encSeq pc (c0 :: cs'))) post 0
            ((pre.length : Int)) g (by push_cast; ring) rfl]
          rw [ebind_ok]
          rw [pyGet_mid pre (g :: (((c0 :: cs').length : Int) :: encSeq pc (c0 :: cs'))) post 1
            ((pre.length : Int) + 1) (((c0 :: cs').length : Nat) : Int)
            (by push_cast; ring) rfl]
          rw [ebind_ok]
          rw [if_pos (by positivity),
            if_pos (show (0 : Int) < (((c0 :: cs').length : Nat) : Int) from by
              exact_mod_cast List.length_pos.mpr (List.cons_ne_nil c0 cs')),
            Int.toNat_natCast]
          rw [hmsg1, hdump, ebind_ok]
          rfl
        · rw [hmsg1, hskipF]
          have hlenE : ((pre ++ [g, ((c0 :: cs').length : Int)]).length +
              (encSeq pc (c0 :: cs')).length : Nat) =
              (pre.length + (g :: (((c0 :: cs').length : Int) ::
                encSeq pc (c0 :: cs'))).length : Nat) := by
            simp only [List.length_append, List.length_cons, List.length_nil]
            omega
          rw [hlenE]
    | synth sid d ctrls =>
      cases pc with
      | true =>
        have hmid : encNode true (NTree.synth sid d ctrls) =
            sid :: ((-1 : Int) :: (d :: (((ctrls.length : Nat) : Int) ::
              encCtrls ctrls))) := rfl
        rw [hmid] at hskip hfuel ⊢
        refine ⟨(pre.length : Int), Int.natCast_nonneg _, ?_, ?_⟩
        · unfold processOne
          rw [hskip, ebind_ok]
          rw [pyGet_mid pre (sid :: ((-1 : Int) :: (d :: (((ctrls.length : Nat) : Int) ::
            encCtrls ctrls)))) post 0 ((pre.length : Int)) sid (by push_cast; ring) rfl]
          rw [ebind_ok]
          rw [pyGet_mid pre (sid :: ((-1 : Int) :: (d :: (((ctrls.length : Nat) : Int) ::
            encCtrls ctrls)))) post 1 ((pre.length : Int) + 1) (-1) (by push_cast; ring) rfl]
          rw [ebind_ok]
          rw [if_neg (show ¬ (0 : Int) ≤ -1 by norm_num)]
          rw [pyGet_mid pre (sid :: ((-1 : Int) :: (d :: (((ctrls.length : Nat) : Int) ::
            encCtrls ctrls)))) post 2 ((pre.length : Int) + 2) d (by push_cast; ring) rfl]
          rw [ebind_ok, if_pos rfl]
          rw [pyGet_mid pre (sid :: ((-1 : Int) :: (d :: (((ctrls.length : Nat) : Int) ::
            encCtrls ctrls)))) post 3 ((pre.length : Int) + 3) ((ctrls.length : Nat) : Int)
            (by push_cast; ring) rfl]
          rw [ebind_ok, Int.toNat_natCast]
          have hmove : pre ++ (sid :: ((-1 : Int) :: (d :: (((ctrls.length : Nat) : Int) ::
              encCtrls ctrls)))) ++ post =
              (pre ++ [sid, -1, d, ((ctrls.length : Nat) : Int)]) ++
                encCtrls ctrls ++ post := by
            simp [List.append_assoc]
          rw [hmove]
          rw [readPairs_ok ctrls (pre ++ [sid, -1, d, ((ctrls.length : Nat) : Int)]) post
            pre.length 0 [] (by simp)]
          rw [ebind_ok]
          rfl
        · rw [skip_synth_pc pre (sid :: ((-1 : Int) :: (d :: (((ctrls.length : Nat) : Int) ::
            encCtrls ctrls)))) post ((ctrls.length : Nat) : Int) rfl rfl]
          have hc : ((pre.length + (sid :: ((-1 : Int) :: (d :: (((ctrls.length : Nat) : Int) ::
              encCtrls ctrls)))).length : Nat) : Int) =
              (pre.length : Int) + (((ctrls.length : Nat) : Int) * 2 + 1) + 3 := by
            simp only [List.length_cons, encCtrls_length]
            push_cast
            ring
          rw [hc]
      | false =>
        have hmid : encNode false (NTree.synth sid d ctrls) = [sid, -1, d] := rfl
        rw [hmid] at hskip hfuel ⊢
        refine ⟨(pre.length : Int), Int.natCast_nonneg _, ?_, ?_⟩
        · unfold processOne
          rw [hskip, ebind_ok]
          rw [pyGet_mid pre [sid, -1, d] post 0 ((pre.length : Int)) sid
            (by push_cast; ring) rfl]
          rw [ebind_ok]
          rw [pyGet_mid pre [sid, -1, d] post 1 ((pre.length : Int) + 1) (-1)
            (by push_cast; ring) rfl]
          rw [ebind_ok]
          rw [if_neg (show ¬ (0 : Int) ≤ -1 by norm_num)]
          rw [pyGet_mid pre [sid, -1, d] post 2 ((pre.length : Int) + 2) d
            (by push_cast; ring) rfl]
          rw [ebind_ok]
          rw [if_neg (show ¬ (false = true) by simp)]
          rfl
        · rw [skip_synth_nopc pre [sid, -1, d] post rfl]
          have hc : ((pre.length + ([sid, -1, d] : List Int).length : Nat) : Int) =
              (pre.length : Int) + 3 := by
            simp
          rw [hc]
  · intro l hls pc pre post acc i fuel hskip hi hfuel
    cases l with
    | nil =>
      cases fuel with
      | zero =>
        exfalso
        simp only [List.length_append] at hfuel
        omega
      | succ f =>
        refine ⟨i, hi, rfl, ?_⟩
        simpa using hskip
    | cons t ts =>
      cases fuel with
      | zero =>
        exfalso
        have h2 := encNode_length_ge pc t
        simp only [encSeq, List.length_append] at hfuel
        omega
      | succ f =>
        have hmsg1 : pre ++ encSeq pc (t :: ts) ++ post =
            pre ++ encNode pc t ++ (encSeq pc ts ++ post) := by
          simp [encSeq, List.append_assoc]
        have hStep := (ih (sizeOf t) (by
            have hsz : sizeOf (t :: ts) = 1 + sizeOf t + sizeOf ts := rfl
            omega)).1 t le_rfl
        have hskipA : skipPhase (pre ++ encNode pc t ++ (encSeq pc ts ++ post)) pc i =
            Except.ok ((pre.length : Int)) := by rw [← hmsg1]; exact hskip
        have hfuelA : 2 * (pre ++ encNode pc t ++ (encSeq pc ts ++ post)).length ≤
            f + 2 * pre.length + 3 := by
          rw [← hmsg1]
          simp only [List.length_append] at hfuel ⊢
          omega
        obtain ⟨iF1, hiF1, hproc, hskip1⟩ := hStep pc pre (encSeq pc ts ++ post) i f
          hskipA hi hfuelA
        have hmsg2 : pre ++ encNode pc t ++ (encSeq pc ts ++ post) =
            (pre ++ encNode pc t) ++ encSeq pc ts ++ post := by
          simp [List.append_assoc]
        have hSeq := (ih (sizeOf ts) (by
            have hsz : sizeOf (t :: ts) = 1 + sizeOf t + sizeOf ts := rfl
            omega)).2 ts le_rfl
        have hskipB : skipPhase ((pre ++ encNode pc t) ++ encSeq pc ts ++ post) pc iF1 =
            Except.ok (((pre ++ encNode pc t).length : Int)) := by
          rw [← hmsg2, hskip1]
          have hc : ((pre.length + (encNode pc t).length : Nat) : Int) =
              (((pre ++ encNode pc t).length : Nat) : Int) := by
            simp
          rw [hc]
        have hfuelB : 2 * ((pre ++ encNode pc t) ++ encSeq pc ts ++ post).length <
            f + 2 * (pre ++ encNode pc t).length := by
          rw [← hmsg2, ← hmsg1]
          have h2 := encNode_length_ge pc t
          simp only [encSeq, List.length_append] at hfuel ⊢
          omega
        obtain ⟨iF, hiF0, hdump, hskipF⟩ := hSeq pc (pre ++ encNode pc t) post
          (dictSet acc (decKey t) (decVal pc t)) iF1 f hskipB hiF1 hfuelB
        refine ⟨iF, hiF0, ?_, ?_⟩
        · rw [show (t :: ts).length = ts.length + 1 from rfl]
          rw [dumpFunc_cons]
          rw [hmsg1, hproc, ebind_ok]
          rw [hmsg2, hdump]
          rfl
        · rw [hmsg1, hmsg2, hskipF]
          have hlenE : ((pre ++ encNode pc t).length + (encSeq pc ts).length : Nat) =
              (pre.length + (encSeq pc (t :: ts)).length : Nat) := by
            simp only [encSeq, List.length_append]
            omega
          rw [hlenE]

theorem pyGet_mid2 (pre mid : List Int) (k : Nat) (off : Int) (v : Int)
    (hoff : off = ((pre.length + k : Nat) : Int)) (h : mid.get? k = some v) :
    pyGet (pre ++ mid) off = Except.ok v := by
  have h2 := pyGet_mid pre mid [] k off v hoff h
  rwa [List.append_nil] at h2

theorem skip_group_header2 (pre mid : List Int) (pc : Bool) (cnt : Int)
    (hmid : mid.get? 1 = some cnt) (hcnt : 0 ≤ cnt) :
    skipPhase (pre ++ mid) pc ((pre.length : Int)) =
      Except.ok ((pre.length : Int) + 2) := by
  have h2 := skip_group_header pre mid [] pc cnt hmid hcnt
  rwa [List.append_nil] at h2

theorem decoder_fail : ∀ N : Nat,
    (∀ t : NTree, sizeOf t ≤ N → StepFailStmt t) ∧
    (∀ l : List NTree, sizeOf l ≤ N → SeqFailStmt l) := by
  intro N
  induction N using Nat.strong_induction_on with
  | _ N ih =>
  constructor
  · intro t hts pc pre m i fuel hm hskip hi hfuel
    cases t with
    | group g cs =>
      have hmid : encNode pc (NTree.group g cs) =
          g :: ((cs.length : Int) :: encSeq pc cs) := rfl
      rw [hmid] at hm hskip hfuel ⊢
      match m, hm with
      | 0, _ =>
        simp only [List.take_zero, List.append_nil] at hskip hfuel ⊢
        unfold processOne
        rw [hskip, ebind_ok]
        rw [pyGet_oob pre ((pre.length : Int)) (le_refl _), ebind_err]
      | 1, _ =>
        have htake : (g :: ((cs.length : Int) :: encSeq pc cs)).take 1 = [g] := rfl
        rw [htake] at hskip hfuel ⊢
        unfold processOne
        rw [hskip, ebind_ok]
        rw [pyGet_mid2 pre [g] 0 ((pre.length : Int)) g (by push_cast; ring) rfl]
        rw [ebind_ok]
        rw [pyGet_oob (pre ++ [g]) ((pre.length : Int) + 1)
          (by simp only [List.length_append, List.length_cons, List.length_nil]; push_cast; omega)]
        rw [ebind_err]
      | (m' + 2), hm =>
        have htake : (g :: ((cs.length : Int) :: encSeq pc cs)).take (m' + 2) =
            g :: ((cs.length : Int) :: (encSeq pc cs).take m') := rfl
        rw [htake] at hskip hfuel ⊢
        have hK : m' < (encSeq pc cs).length := by
          simp only [List.length_cons] at hm
          omega
        cases cs with
        | nil =>
          exfalso
          simp only [encSeq, List.length_nil] at hK
          omega
        | cons c0 cs' =>
          have hmsg1 : pre ++ (g :: (((c0 :: cs').length : Int) ::
              (encSeq pc (c0 :: cs')).take m')) =
              (pre ++ [g, ((c0 :: cs').length : Int)]) ++ (encSeq pc (c0 :: cs')).take m' := by
            simp [List.append_assoc]
          have hSeqF := (ih (sizeOf (c0 :: cs')) (by
              have hsz := NTree.group.sizeOf_spec g (c0 :: cs')
              omega)).2 (c0 :: cs') le_rfl
          have hskip2 : skipPhase ((pre ++ [g, ((c0 :: cs').length : Int)]) ++
              (encSeq pc (c0 :: cs')).take m') pc ((pre.length : Int)) =
              Except.ok (((pre ++ [g, ((c0 :: cs').length : Int)]).length : Int)) := by
            rw [← hmsg1]
            rw [skip_group_header2 pre (g :: (((c0 :: cs').length : Int) ::
              (encSeq pc (c0 :: cs')).take m')) pc (((c0 :: cs').length : Nat) : Int) rfl
              (Int.natCast_nonneg _)]
            have hc : (((pre ++ [g, ((c0 :: cs').length : Int)]).length : Nat) : Int) =
                (pre.length : Int) + 2 := by simp
            rw [hc]
          have hfuel2 : 2 * ((pre ++ [g, ((c0 :: cs').length : Int)]) ++
              (encSeq pc (c0 :: cs')).take m').length <
              fuel + 2 * (pre ++ [g, ((c0 :: cs').length : Int)]).length := by
            rw [← hmsg1]
            simp only [List.length_append, List.length_cons, List.length_nil] at hfuel ⊢
            omega
          have hfail := hSeqF pc (pre ++ [g, ((c0 :: cs').length : Int)]) m' []
            ((pre.length : Int)) fuel hK hskip2 (Int.natCast_nonneg _) hfuel2
          unfold processOne
          rw [hskip, ebind_ok]
          rw [pyGet_mid2 pre (g :: (((c0 :: cs').length : Int) ::
            (encSeq pc (c0 :: cs')).take m')) 0 ((pre.length : Int)) g
            (by push_cast; ring) rfl]
          rw [ebind_ok]
          rw [pyGet_mid2 pre (g :: (((c0 :: cs').length : Int) ::
            (encSeq pc (c0 :: cs')).take m')) 1 ((pre.length : Int) + 1)
            (((c0 :: cs').length : Nat) : Int) (by push_cast; ring) rfl]
          rw [ebind_ok]
          rw [if_pos (by positivity),
            if_pos (show (0 : Int) < (((c0 :: cs').length : Nat) : Int) from by
              exact_mod_cast List.length_pos.mpr (List.cons_ne_nil c0 cs')),
            Int.toNat_natCast]
          rw [hmsg1, hfail, ebind_err]
    | synth sid d ctrls =>
      cases pc with
      | false =>
        have hmid : encNode false (NTree.synth sid d ctrls) = [sid, -1, d] := rfl
        rw [hmid] at hm hskip hfuel ⊢
        match m, hm with
        | 0, _ =>
          simp only [List.take_zero, List.append_nil] at hskip hfuel ⊢
          unfold processOne
          rw [hskip, ebind_ok]
          rw [pyGet_oob pre ((pre.length : Int)) (le_refl _), ebind_err]
        | 1, _ =>
          have htake : ([sid, -1, d] : List Int).take 1 = [sid] := rfl
          rw [htake] at hskip hfuel ⊢
          unfold processOne
          rw [hskip, ebind_ok]
          rw [pyGet_mid2 pre [sid] 0 ((pre.length : Int)) sid (by push_cast; ring) rfl]
          rw [ebind_ok]
          rw [pyGet_oob (pre ++ [sid]) ((pre.length : Int) + 1)
            (by simp only [List.length_append, List.length_cons, List.length_nil]; push_cast; omega)]
          rw [ebind_err]
        | 2, _ =>
          have htake : ([sid, -1, d] : List Int).take 2 = [sid, -1] := rfl
          rw [htake] at hskip hfuel ⊢
          unfold processOne
          rw [hskip, ebind_ok]
          rw [pyGet_mid2 pre [sid, -1] 0 ((pre.length : Int)) sid (by push_cast; ring) rfl]
          rw [ebind_ok]
          rw [pyGet_mid2 pre [sid, -1] 1 ((pre.length : Int) + 1) (-1)
            (by push_cast; ring) rfl]
          rw [ebind_ok]
          rw [if_neg (show ¬ (0 : Int) ≤ -1 by norm_num)]
          rw [pyGet_oob (pre ++ [sid, -1]) ((pre.length : Int) + 2)
            (by simp only [List.length_append, List.length_cons, List.length_nil]; push_cast; omega)]
          rw [ebind_err]
      | true =>
        have hmid : encNode true (NTree.synth sid d ctrls) =
            sid :: ((-1 : Int) :: (d :: (((ctrls.length : Nat) : Int) ::
              encCtrls ctrls))) := rfl
        rw [hmid] at hm hskip hfuel ⊢
        match m, hm with
        | 0, _ =>
          simp only [List.take_zero, List.append_nil] at hskip hfuel ⊢
          unfold processOne
          rw [hskip, ebind_ok]
          rw [pyGet_oob pre ((pre.length : Int)) (le_refl _), ebind_err]
        | 1, _ =>
          have htake : (sid :: ((-1 : Int) :: (d :: (((ctrls.length : Nat) : Int) ::
              encCtrls ctrls)))).take 1 = [sid] := rfl
          rw [htake] at hskip hfuel ⊢
          unfold processOne
          rw [hskip, ebind_ok]
          rw [pyGet_mid2 pre [sid] 0 ((pre.length : Int)) sid (by push_cast; ring) rfl]
          rw [ebind_ok]
          rw [pyGet_oob (pre ++ [sid]) ((pre.length : Int) + 1)
            (by simp only [List.length_append, List.length_cons, List.length_nil]; push_cast; omega)]
          rw [ebind_err]
        | 2, _ =>
          have htake : (sid :: ((-1 : Int) :: (d :: (((ctrls.length : Nat) : Int) ::
              encCtrls ctrls)))).take 2 = [sid, -1] := rfl
          rw [htake] at hskip hfuel ⊢
          unfold processOne
          rw [hskip, ebind_ok]
          rw [pyGet_mid2 pre [sid, -1] 0 ((pre.length : Int)) sid (by push_cast; ring) rfl]
          rw [ebind_ok]
          rw [pyGet_mid2 pre [sid, -1] 1 ((pre.length : Int) + 1) (-1)
            (by push_cast; ring) rfl]
          rw [ebind_ok]
          rw [if_neg (show ¬ (0 : Int) ≤ -1 by norm_num)]
          rw [pyGet_oob (pre ++ [sid, -1]) ((pre.length : Int) + 2)
            (by simp only [List.length_append, List.length_cons, List.length_nil]; push_cast; omega)]
          rw [ebind_err]
        | 3, _ =>
          have htake : (sid :: ((-1 : Int) :: (d :: (((ctrls.length : Nat) : Int) ::
              encCtrls ctrls)))).take 3 = [sid, -1, d] := rfl
          rw [htake] at hskip hfuel ⊢
          unfold processOne
          rw [hskip, ebind_ok]
          rw [pyGet_mid2 pre [sid, -1, d] 0 ((pre.length : Int)) sid
            (by push_cast; ring) rfl]
          rw [ebind_ok]
          rw [pyGet_mid2 pre [sid, -1, d] 1 ((pre.length : Int) + 1) (-1)
            (by push_cast; ring) rfl]
          rw [ebind_ok]
          rw [if_neg (show ¬ (0 : Int) ≤ -1 by norm_num)]
          rw [pyGet_mid2 pre [sid, -1, d] 2 ((pre.length : Int) + 2) d
            (by push_cast; ring) rfl]
          rw [ebind_ok, if_pos rfl]
          rw [pyGet_oob (pre ++ [sid, -1, d]) ((pre.length : Int) + 3)
            (by simp only [List.length_append, List.length_cons, List.length_nil]; push_cast; omega)]
          rw [ebind_err]
        | (m'' + 4), hm =>
          have htake : (sid :: ((-1 : Int) :: (d :: (((ctrls.length : Nat) : Int) ::
              encCtrls ctrls)))).take (m'' + 4) =
              sid :: ((-1 : Int) :: (d :: (((ctrls.length : Nat) : Int) ::
                (encCtrls ctrls).take m''))) := rfl
          rw [htake] at hskip hfuel ⊢
          have hC : m'' < (encCtrls ctrls).length := by
            simp only [List.length_cons] at hm
            omega
          have hC2 : 1 ≤ ctrls.length := by
            rw [encCtrls_length] at hC
            omega
          unfold processOne
          rw [hskip, ebind_ok]
          rw [pyGet_mid2 pre (sid :: ((-1 : Int) :: (d :: (((ctrls.length : Nat) : Int) ::
            (encCtrls ctrls).take m'')))) 0 ((pre.length : Int)) sid
            (by push_cast; ring) rfl]
          rw [ebind_ok]
          rw [pyGet_mid2 pre (sid :: ((-1 : Int) :: (d :: (((ctrls.length : Nat) : Int) ::
            (encCtrls ctrls).take m'')))) 1 ((pre.length : Int) + 1) (-1)
            (by push_cast; ring) rfl]
          rw [ebind_ok]
          rw [if_neg (show ¬ (0 : Int) ≤ -1 by norm_num)]
          rw [pyGet_mid2 pre (sid :: ((-1 : Int) :: (d :: (((ctrls.length : Nat) : Int) ::
            (encCtrls ctrls).take m'')))) 2 ((pre.length : Int) + 2) d
            (by push_cast; ring) rfl]
          rw [ebind_ok, if_pos rfl]
          rw [pyGet_mid2 pre (sid :: ((-1 : Int) :: (d :: (((ctrls.length : Nat) : Int) ::
            (encCtrls ctrls).take m'')))) 3 ((pre.length : Int) + 3)
            ((ctrls.length : Nat) : Int) (by push_cast; ring) rfl]
          rw [ebind_ok, Int.toNat_natCast]
          rw [readPairs_fail ctrls.length _ pre.length 0 [] hC2 (by
            rw [encCtrls_length] at hC
            simp only [List.length_append, List.length_cons, List.length_take]
            push_cast
            omega)]
          rw [ebind_err]
  · intro l hls pc pre m acc i fuel hm hskip hi hfuel
    cases l with
    | nil =>
      exfalso
      simp only [encSeq, List.length_nil] at hm
      omega
    | cons t ts =>
      cases fuel with
      | zero =>
        exfalso
        simp only [List.length_append, List.length_take] at hfuel
        omega
      | succ f =>
        rw [show (t :: ts).length = ts.length + 1 from rfl]
        rw [dumpFunc_cons]
        rcases Nat.lt_or_ge m (encNode pc t).length with hlt | hge
        · have htake : (encSeq pc (t :: ts)).take m = (encNode pc t).take m := by
            rw [show encSeq pc (t :: ts) = encNode pc t ++ encSeq pc ts from rfl]
            exact List.take_append_of_le_length (Nat.le_of_lt hlt)
          rw [htake] at hskip hfuel ⊢
          have hStepF := (ih (sizeOf t) (by
              have hsz : sizeOf (t :: ts) = 1 + sizeOf t + sizeOf ts := rfl
              omega)).1 t le_rfl
          rw [hStepF pc pre m i f hlt hskip hi (by
            simp only [List.length_append, List.length_take] at hfuel ⊢
            omega)]
          rw [ebind_err]
        · have htake : (encSeq pc (t :: ts)).take m =
              encNode pc t ++ (encSeq pc ts).take (m - (encNode pc t).length) := by
            rw [show encSeq pc (t :: ts) = encNode pc t ++ encSeq pc ts from rfl]
            rw [List.take_append_eq_append_take, List.take_all_of_le hge]
          rw [htake] at hskip hfuel ⊢
          have hmsgA : pre ++ (encNode pc t ++ (encSeq pc ts).take (m - (encNode pc t).length)) =
              pre ++ encNode pc t ++ (encSeq pc ts).take (m - (encNode pc t).length) := by
            simp [List.append_assoc]
          rw [hmsgA] at hskip hfuel ⊢
          have hStep := (decoder_ok (sizeOf t)).1 t le_rfl
          have hfuelA : 2 * (pre ++ encNode pc t ++
              (encSeq pc ts).take (m - (encNode pc t).length)).length ≤
              f + 2 * pre.length + 3 := by
            simp only [List.length_append, List.length_take] at hfuel ⊢
            omega
          obtain ⟨iF1, hiF1, hproc, hskip1⟩ := hStep pc pre
            ((encSeq pc ts).take (m - (encNode pc t).length)) i f hskip hi hfuelA
          rw [hproc, ebind_ok]
          have hmsgB : pre ++ encNode pc t ++ (encSeq pc ts).take (m - (encNode pc t).length) =
              (pre ++ encNode pc t) ++ (encSeq pc ts).take (m - (encNode pc t).length) := by
            simp [List.append_assoc]
          have hSeqF := (ih (sizeOf ts) (by
              have hsz : sizeOf (t :: ts) = 1 + sizeOf t + sizeOf ts := rfl
              omega)).2 ts le_rfl
          have hm2 : m - (encNode pc t).length < (encSeq pc ts).length := by
            simp only [encSeq, List.length_append] at hm
            omega
          have hskipB : skipPhase ((pre ++ encNode pc t) ++
              (encSeq pc ts).take (m - (encNode pc t).length)) pc iF1 =
              Except.ok (((pre ++ encNode pc t).length : Int)) := by
            rw [← hmsgB, hskip1]
            have hc : ((pre.length + (encNode pc t).length : Nat) : Int) =
                (((pre ++ encNode pc t).length : Nat) : Int) := by simp
            rw [hc]
          have hfuelB : 2 * ((pre ++ encNode pc t) ++
              (encSeq pc ts).take (m - (encNode pc t).length)).length <
              f + 2 * (pre ++ encNode pc t).length := by
            rw [← hmsgB]
            have h2 := encNode_length_ge pc t
            simp only [List.length_append, List.length_take] at hfuel ⊢
            omega
          rw [hmsgB]
          rw [hSeqF pc (pre ++ encNode pc t) (m - (encNode pc t).length)
            (dictSet acc (decKey t) (decVal pc t)) iF1 f hm2 hskipB hiF1 hfuelB]

theorem decodeTree_step (msg : List Int) (f gg n : Int)
    (h1 : pyGet msg 1 = Except.ok f) (h2 : pyGet msg 2 = Except.ok gg)
    (h3 : pyGet msg 3 = Except.ok n) (hn : 0 < n) :
    decodeTree msg =
      (dumpFunc msg (if f = 0 then false else true) (msg.length * 2 + 1) [] n.toNat 2) >>=
        fun r => Except.ok ([(QKey.group gg, QVal.group r.1)], r.2) := by
  unfold decodeTree
  rw [h1, ebind_ok, h2, ebind_ok, h3, ebind_ok, if_pos hn]
  rfl

/-- C9: every strict prefix of a well-formed tree-reply encoding makes the
decoder fail with the index error: a truncated payload means some embedded
child count or control count overruns the end of the flat sequence, and the
decoder surfaces the structural error instead of returning a partial tree. -/
theorem c9_truncated_overrun (pc : Bool) (g : Int) (cs : List NTree) (k : Nat)
    (hk : k < (encodeTop pc g cs).length) :
    decodeTree ((encodeTop pc g cs).take k) = Except.error DErr.idx := by
  match k with
  | 0 => cases pc <;> rfl
  | 1 => cases pc <;> rfl
  | 2 => cases pc <;> rfl
  | 3 => cases pc <;> rfl
  | (m + 4) =>
    have hm : m < (encSeq pc cs).length := by
      simp only [encodeTop, List.length_cons] at hk
      omega
    cases cs with
    | nil =>
      exfalso
      simp only [encSeq, List.length_nil] at hm
      omega
    | cons c0 cs' =>
      have htake : (encodeTop pc g (c0 :: cs')).take (m + 4) =
          (0 : Int) :: ((if pc then (1 : Int) else 0) :: (g ::
            ((((c0 :: cs').length : Nat) : Int) ::
              (encSeq pc (c0 :: cs')).take m))) := rfl
      rw [htake]
      have hsplit : (0 : Int) :: ((if pc then (1 : Int) else 0) :: (g ::
          ((((c0 :: cs').length : Nat) : Int) :: (encSeq pc (c0 :: cs')).take m))) =
          ([0, (if pc then (1 : Int) else 0), g, (((c0 :: cs').length : Nat) : Int)] :
            List Int) ++ (encSeq pc (c0 :: cs')).take m := rfl
      rw [hsplit]
      have hstep := decodeTree_step
        (([0, (if pc then (1 : Int) else 0), g, (((c0 :: cs').length : Nat) : Int)] :
          List Int) ++ (encSeq pc (c0 :: cs')).take m)
        (if pc then (1 : Int) else 0) g (((c0 :: cs').length : Nat) : Int)
        (by cases pc <;> rfl) (by cases pc <;> rfl) (by cases pc <;> rfl)
        (by exact_mod_cast List.length_pos.mpr (List.cons_ne_nil c0 cs'))
      rw [hstep]
      have hflag : (if (if pc then (1 : Int) else 0) = 0 then false else true) = pc := by
        cases pc <;> rfl
      rw [hflag, Int.toNat_natCast]
      have hSeqF := (decoder_fail (sizeOf (c0 :: cs'))).2 (c0 :: cs') le_rfl
      have hskip : skipPhase
          (([0, (if pc then (1 : Int) else 0), g, (((c0 :: cs').length : Nat) : Int)] :
            List Int) ++ (encSeq pc (c0 :: cs')).take m) pc (2 : Int) =
          Except.ok ((([0, (if pc then (1 : Int) else 0), g,
            (((c0 :: cs').length : Nat) : Int)] : List Int).length : Int)) := by
        exact skip_group_header2 ([0, (if pc then (1 : Int) else 0)] : List Int)
          (g :: ((((c0 :: cs').length : Nat) : Int) :: (encSeq pc (c0 :: cs')).take m))
          pc (((c0 :: cs').length : Nat) : Int) rfl (Int.natCast_nonneg _)
      have hfuel : 2 * (([0, (if pc then (1 : Int) else 0), g,
          (((c0 :: cs').length : Nat) : Int)] : List Int) ++
          (encSeq pc (c0 :: cs')).take m).length <
          ((([0, (if pc then (1 : Int) else 0), g,
            (((c0 :: cs').length : Nat) : Int)] : List Int) ++
            (encSeq pc (c0 :: cs')).take m).length * 2 + 1) +
          2 * ([0, (if pc then (1 : Int) else 0), g,
            (((c0 :: cs').length : Nat) : Int)] : List Int).length := by
        simp only [List.length_append, List.length_cons, List.length_nil, List.length_take]
        omega
      rw [hSeqF pc ([0, (if pc then (1 : Int) else 0), g,
          (((c0 :: cs').length : Nat) : Int)] : List Int) m [] 2 _ hm hskip
          (by norm_num) hfuel]
      rw [ebind_err]

theorem c9_truncated_overrun_witness :
    6 < (encodeTop true 5 [NTree.synth 7 9 [(1, 2)]]).length ∧
    decodeTree ((encodeTop true 5 [NTree.synth 7 9 [(1, 2)]]).take 6) =
      Except.error DErr.idx :=
  ⟨by decide, c9_truncated_overrun true 5 [NTree.synth 7 9 [(1, 2)]] 6 (by decide)⟩
